import Mathlib

/-!
# Verification of the avocado three-layer calendar reconciliation engine

Shallow embedding of the core of the `avocado` repository in Lean 4, together
with proofs and refutations of the specification claims about it.

Python machine strings are embedded as `List Char` (named `PyStr`), Python
dicts as insertion-ordered association lists, fallible code as `Option` or
`Except Unit` (where `Except.error` models an uncaught Python exception), and
timezone-aware datetimes as integer instants (seconds relative to the epoch),
matching Python's instant-based equality of aware datetimes.

Sources embedded below:
* `avocado/sync_engine.py` — `_staging_uid`, `_managed_uid_prefix_depth`,
  `_collapse_nested_managed_uid`, `_event_has_user_intent`,
  `_extract_editable_fields`, and the per-change gate sequence of `run_once`.
* `avocado/reconciler.py` — `apply_change` and its outcome record.
* `avocado/planner.py` — `normalize_changes`.
* `avocado/task_block.py` — `parse_ai_task_block`, `_normalize_task`,
  `upsert_ai_task_block`, `build_default_task`.
* `avocado/models.py` — `EventRecord`, `parse_iso_datetime`,
  `TaskDefaultsConfig`, `DEFAULT_EDITABLE_FIELDS`.

External collaborators that are not part of the repository (the PyYAML
codec used on task-block bodies, the stdlib `datetime.fromisoformat`) are
modelled from the specification's words; their definitions carry a
`Modelled from the spec:` doc comment.
-/

/-- A Python machine string, embedded as its list of characters. -/
abbrev PyStr := List Char

/-- Conversion from a Lean string literal to the embedded string type. -/
def lit (s : String) : PyStr := s.toList

/-- Python's `str.isspace` character class, restricted to the ASCII
whitespace characters that the embedded code paths can encounter. -/
def isPySpace (c : Char) : Bool :=
  c = ' ' || c = '\t' || c = '\n' || c = '\r' || c = Char.ofNat 11 || c = Char.ofNat 12

/-- Python `str.lstrip()`. -/
def pyLstrip (s : PyStr) : PyStr := s.dropWhile isPySpace

/-- Python `str.rstrip()`. -/
def pyRstrip (s : PyStr) : PyStr := (s.reverse.dropWhile isPySpace).reverse

/-- Python `str.strip()`. -/
def pyStrip (s : PyStr) : PyStr := pyRstrip (pyLstrip s)

/-! ## Event model (`avocado/models.py`) -/

/-- `EventRecord` from `avocado/models.py`.  `start`/`end` are
timezone-aware instants (`Option Int`, absent = Python `None`); the field
`end` is spelled `end_` because `end` is a Lean keyword. -/
structure EventRecord where
  calendar_id : PyStr
  uid : PyStr
  summary : PyStr := []
  description : PyStr := []
  location : PyStr := []
  start : Option Int := none
  end_ : Option Int := none
  all_day : Bool := false
  href : PyStr := []
  etag : PyStr := []
  source : PyStr := lit "user"
  mandatory : Bool := false
  locked : Bool := false
  original_calendar_id : PyStr := []
  original_uid : PyStr := []
deriving DecidableEq

/-- `EventRecord.clone` from `avocado/models.py`: a field-by-field copy. -/
def EventRecord.clone (e : EventRecord) : EventRecord :=
  { calendar_id := e.calendar_id
    uid := e.uid
    summary := e.summary
    description := e.description
    location := e.location
    start := e.start
    end_ := e.end_
    all_day := e.all_day
    href := e.href
    etag := e.etag
    source := e.source
    mandatory := e.mandatory
    locked := e.locked
    original_calendar_id := e.original_calendar_id
    original_uid := e.original_uid }

/-! ## ISO datetime parsing (`avocado/models.py` `parse_iso_datetime`)

`parse_iso_datetime` strips the text, rewrites a trailing `Z` to `+00:00`,
calls the stdlib `datetime.fromisoformat` and finally attaches UTC to naive
results.  The stdlib parser itself is external to the repository and is
modelled from the spec. -/

/-- Decimal value of an ASCII digit, `none` for non-digits. -/
def digitVal (c : Char) : Option Nat :=
  if '0' ≤ c ∧ c ≤ '9' then some (c.toNat - '0'.toNat) else none

/-- Read a fixed-width decimal number from the front of a string. -/
def readDigits : Nat → PyStr → Option (Nat × PyStr)
  | 0, s => some (0, s)
  | _ + 1, [] => none
  | n + 1, c :: rest =>
    match digitVal c with
    | none => none
    | some d =>
      match readDigits n rest with
      | none => none
      | some (v, rem) => some (d * 10 ^ n + v, rem)

/-- Days since the Unix epoch of a proleptic-Gregorian civil date
(standard `days_from_civil` computation). -/
def daysFromCivil (y m d : Int) : Int :=
  let y2 : Int := if m ≤ 2 then y - 1 else y
  let era : Int := (if 0 ≤ y2 then y2 else y2 - 399) / 400
  let yoe : Int := y2 - era * 400
  let mp : Int := if 2 < m then m - 3 else m + 9
  let doy : Int := (153 * mp + 2) / 5 + d - 1
  let doe : Int := yoe * 365 + yoe / 4 - yoe / 100 + doy
  era * 146097 + doe - 719468

/-- Expect a literal character at the front of a string. -/
def expectChar (c : Char) : PyStr → Option PyStr
  | [] => none
  | x :: rest => if x = c then some rest else none

/-- Modelled from the spec: the stdlib `datetime.fromisoformat` parser,
which is absent from the repository sources.  Accepts
`YYYY-MM-DD[THH:MM:SS[±HH:MM]]` and returns the seconds-since-epoch instant
together with whether an explicit UTC offset was present (naive results are
later given UTC by `_ensure_tz`). -/
def fromIsoformat (s : PyStr) : Option Int := Id.run do
  let some (y, r1) := readDigits 4 s | none
  let some r2 := expectChar '-' r1 | none
  let some (mo, r3) := readDigits 2 r2 | none
  let some r4 := expectChar '-' r3 | none
  let some (dy, r5) := readDigits 2 r4 | none
  if ¬ (1 ≤ mo ∧ mo ≤ 12 ∧ 1 ≤ dy ∧ dy ≤ 31) then none
  else
    let dayPart : Int := daysFromCivil (Int.ofNat y) (Int.ofNat mo) (Int.ofNat dy) * 86400
    match r5 with
    | [] => some dayPart
    | sep :: r6 =>
      if ¬ (sep = 'T' ∨ sep = ' ') then none
      else
        let some (h, r7) := readDigits 2 r6 | none
        let some r8 := expectChar ':' r7 | none
        let some (mi, r9) := readDigits 2 r8 | none
        let some r10 := expectChar ':' r9 | none
        let some (se, r11) := readDigits 2 r10 | none
        if ¬ (h < 24 ∧ mi < 60 ∧ se < 60) then none
        else
          let t : Int := dayPart + Int.ofNat (h * 3600 + mi * 60 + se)
          match r11 with
          | [] => some t
          | sgn :: r12 =>
            if ¬ (sgn = '+' ∨ sgn = '-') then none
            else
              let some (oh, r13) := readDigits 2 r12 | none
              let some r14 := expectChar ':' r13 | none
              let some (om, r15) := readDigits 2 r14 | none
              if ¬ (r15 = [] ∧ oh < 24 ∧ om < 60) then none
              else
                let off : Int := Int.ofNat (oh * 3600 + om * 60)
                some (if sgn = '-' then t + off else t - off)

/-- `parse_iso_datetime` from `avocado/models.py`, for string input: strip,
rewrite a trailing `Z` to `+00:00`, parse, and treat naive results as UTC
(which the instant encoding already does).  `none` models the exception the
caller of `apply_change` catches. -/
def parseIsoDatetime (value : PyStr) : Option Int :=
  let text := pyStrip value
  let text :=
    if text ≠ [] ∧ text.getLast? = some 'Z' then
      text.dropLast ++ lit "+00:00"
    else text
  fromIsoformat text

/-! ## Reconciler (`avocado/reconciler.py`) -/

/-- `ALLOWED_FIELDS` from `avocado/reconciler.py` (a Python set; membership
is what matters). -/
def ALLOWED_FIELDS : List PyStr :=
  [lit "start", lit "end", lit "summary", lit "location", lit "description"]

/-- `APPLY_FIELD_ORDER` from `avocado/reconciler.py`. -/
def APPLY_FIELD_ORDER : List PyStr :=
  [lit "start", lit "end", lit "summary", lit "location", lit "description"]

/-- `ALLOWED_FIELDS` in Python `sorted` order, used to embed
`sorted(field for field in (ALLOWED_FIELDS - applicable) if field in change)`. -/
def ALLOWED_SORTED : List PyStr :=
  [lit "description", lit "end", lit "location", lit "start", lit "summary"]

/-- A planner change as passed to `apply_change`: the five editable keys,
each possibly absent.  (Values are the JSON strings produced by the
planner; `calendar_id`/`uid`/`category`/`reason` are not read by
`apply_change` and are omitted here.) -/
structure Change where
  start : Option PyStr := none
  end_ : Option PyStr := none
  summary : Option PyStr := none
  location : Option PyStr := none
  description : Option PyStr := none
deriving DecidableEq

/-- Python `field in change` for the five editable field names. -/
def changeHas (c : Change) (f : PyStr) : Bool :=
  if f = lit "start" then c.start.isSome
  else if f = lit "end" then c.end_.isSome
  else if f = lit "summary" then c.summary.isSome
  else if f = lit "location" then c.location.isSome
  else if f = lit "description" then c.description.isSome
  else false

/-- Python `change.get(field)` for the three plain string fields. -/
def changeGetStr (c : Change) (f : PyStr) : Option PyStr :=
  if f = lit "summary" then c.summary
  else if f = lit "location" then c.location
  else if f = lit "description" then c.description
  else none

/-- `getattr(event, field)` for the three plain string fields. -/
def getStrField (e : EventRecord) (f : PyStr) : PyStr :=
  if f = lit "summary" then e.summary
  else if f = lit "location" then e.location
  else if f = lit "description" then e.description
  else []

/-- `setattr(event, field, value)` for the three plain string fields. -/
def setStrField (e : EventRecord) (f : PyStr) (v : PyStr) : EventRecord :=
  if f = lit "summary" then { e with summary := v }
  else if f = lit "location" then { e with location := v }
  else if f = lit "description" then { e with description := v }
  else e

/-- `ReconcileOutcome` from `avocado/reconciler.py`. -/
structure ReconcileOutcome where
  applied : Bool
  conflicted : Bool
  reason : PyStr
  event : EventRecord
  blocked_fields : List PyStr
deriving DecidableEq

/-- One iteration of the `for field in APPLY_FIELD_ORDER` loop of
`apply_change`.  `applicable` is the membership test of
`applicable_fields`; `pstart`/`pend` are `parsed_datetimes` (a parsed value
is present exactly when the change carries the field and parsing
succeeded, which the caller has already ensured). -/
def applyFieldStep (c : Change) (applicable : PyStr → Bool)
    (pstart pend : Option Int) (st : EventRecord × Bool) (f : PyStr) :
    EventRecord × Bool :=
  if ¬ applicable f = true then st
  else if ¬ changeHas c f = true then st
  else if f = lit "start" then
    if pstart.isSome ∧ st.1.start ≠ pstart then ({ st.1 with start := pstart }, true) else st
  else if f = lit "end" then
    if pend.isSome ∧ st.1.end_ ≠ pend then ({ st.1 with end_ := pend }, true) else st
  else
    match changeGetStr c f with
    | none => st
    | some v => if getStrField st.1 f ≠ v then (setStrField st.1 f v, true) else st

/-- Parse one datetime field of the change, mirroring the
`parsed_datetimes` loop: `none` models the caught exception,
`some none` an absent field, `some (some t)` a parsed value. -/
def parseChangeDT (o : Option PyStr) : Option (Option Int) :=
  match o with
  | none => some none
  | some v =>
    match parseIsoDatetime v with
    | none => none
    | some t => some (some t)

/-- `apply_change` from `avocado/reconciler.py`. -/
def applyChange (current_event : EventRecord) (change : Change)
    (baseline_etag : PyStr) (editable_fields : Option (List PyStr) := none) :
    ReconcileOutcome :=
  if current_event.locked = true ∨ current_event.mandatory = true then
    { applied := false
      conflicted := true
      reason := lit "event_locked_or_mandatory"
      event := current_event
      blocked_fields := [] }
  else if baseline_etag ≠ [] ∧ current_event.etag ≠ [] ∧ baseline_etag ≠ current_event.etag then
    { applied := false
      conflicted := true
      reason := lit "user_modified_after_planning"
      event := current_event
      blocked_fields := [] }
  else
    match parseChangeDT change.start with
    | none =>
      { applied := false
        conflicted := true
        reason := lit "invalid_datetime"
        event := current_event
        blocked_fields := [] }
    | some pstart =>
      match parseChangeDT change.end_ with
      | none =>
        { applied := false
          conflicted := true
          reason := lit "invalid_datetime"
          event := current_event
          blocked_fields := [] }
      | some pend =>
        let editable_list :=
          match editable_fields with
          | none => APPLY_FIELD_ORDER
          | some l => if l = [] then APPLY_FIELD_ORDER else l
        let editable_set := (editable_list.map pyStrip).filter (fun f => f ≠ [])
        let applicable := fun f => ALLOWED_FIELDS.contains f && editable_set.contains f
        let blocked :=
          ALLOWED_SORTED.filter (fun f => !applicable f && changeHas change f)
        let final :=
          APPLY_FIELD_ORDER.foldl (applyFieldStep change applicable pstart pend)
            (current_event.clone, false)
        { applied := final.2
          conflicted := false
          reason := if final.2 then lit "applied" else lit "no_changes"
          event := final.1
          blocked_fields := blocked }

/-! ## Reconciler frame infrastructure -/

/-- Agreement of two events on every field outside
`{start, end, summary, location, description}`. -/
def FrameAgrees (a b : EventRecord) : Prop :=
  a.calendar_id = b.calendar_id ∧ a.uid = b.uid ∧ a.all_day = b.all_day ∧
  a.href = b.href ∧ a.etag = b.etag ∧ a.source = b.source ∧
  a.mandatory = b.mandatory ∧ a.locked = b.locked ∧
  a.original_calendar_id = b.original_calendar_id ∧
  a.original_uid = b.original_uid

theorem frameAgrees_refl (a : EventRecord) : FrameAgrees a a := by
  simp [FrameAgrees]

theorem frameAgrees_trans {a b c : EventRecord}
    (h1 : FrameAgrees a b) (h2 : FrameAgrees b c) : FrameAgrees a c := by
  obtain ⟨e1, e2, e3, e4, e5, e6, e7, e8, e9, e10⟩ := h1
  obtain ⟨f1, f2, f3, f4, f5, f6, f7, f8, f9, f10⟩ := h2
  exact ⟨e1.trans f1, e2.trans f2, e3.trans f3, e4.trans f4, e5.trans f5,
    e6.trans f6, e7.trans f7, e8.trans f8, e9.trans f9, e10.trans f10⟩

theorem setStrField_frame (e : EventRecord) (f v : PyStr) :
    FrameAgrees (setStrField e f v) e := by
  unfold setStrField
  split
  · simp [FrameAgrees]
  · split
    · simp [FrameAgrees]
    · split
      · simp [FrameAgrees]
      · exact frameAgrees_refl e

theorem applyFieldStep_frame (c : Change) (ap : PyStr → Bool)
    (ps pe : Option Int) (st : EventRecord × Bool) (f : PyStr) :
    FrameAgrees (applyFieldStep c ap ps pe st f).1 st.1 := by
  unfold applyFieldStep
  split
  · exact frameAgrees_refl _
  split
  · exact frameAgrees_refl _
  split
  · split
    · simp [FrameAgrees]
    · exact frameAgrees_refl _
  split
  · split
    · simp [FrameAgrees]
    · exact frameAgrees_refl _
  split
  · exact frameAgrees_refl _
  split
  · exact setStrField_frame _ _ _
  · exact frameAgrees_refl _

theorem foldl_applyFieldStep_frame (c : Change) (ap : PyStr → Bool)
    (ps pe : Option Int) (l : List PyStr) :
    ∀ st : EventRecord × Bool,
      FrameAgrees (l.foldl (applyFieldStep c ap ps pe) st).1 st.1 := by
  induction l with
  | nil => intro st; exact frameAgrees_refl _
  | cons f rest ih =>
    intro st
    exact frameAgrees_trans (ih (applyFieldStep c ap ps pe st f))
      (applyFieldStep_frame c ap ps pe st f)

theorem clone_eq (e : EventRecord) : e.clone = e := by
  cases e; rfl

/-! ## Claim C9: frame property of `apply_change` -/

/-- C9: `apply_change` never modifies any field outside
`{start, end, summary, location, description}` of the event it returns,
and in every conflicted outcome the returned event is the input event. -/
theorem C9_apply_change_frame (e : EventRecord) (c : Change)
    (b : PyStr) (ef : Option (List PyStr)) :
    FrameAgrees (applyChange e c b ef).event e ∧
      ((applyChange e c b ef).conflicted = true → (applyChange e c b ef).event = e) := by
  unfold applyChange
  split
  · exact ⟨frameAgrees_refl e, fun _ => rfl⟩
  split
  · exact ⟨frameAgrees_refl e, fun _ => rfl⟩
  split
  · exact ⟨frameAgrees_refl e, fun _ => rfl⟩
  split
  · exact ⟨frameAgrees_refl e, fun _ => rfl⟩
  rename_i x1 ps hps x2 pe hpe
  refine ⟨?_, ?_⟩
  · have h := foldl_applyFieldStep_frame c
      (fun f => ALLOWED_FIELDS.contains f &&
        (((match ef with
            | none => APPLY_FIELD_ORDER
            | some l => if l = [] then APPLY_FIELD_ORDER else l).map pyStrip).filter
              (fun f => f ≠ [])).contains f)
      ps pe APPLY_FIELD_ORDER (e.clone, false)
    simpa [clone_eq] using h
  · intro h
    simp at h

/-- C9 witness: the conflicted-outcome half applied at a concrete locked
event recovers the unchanged event. -/
theorem C9_apply_change_frame_witness :
    (applyChange { calendar_id := lit "c", uid := lit "u", locked := true }
        { summary := some (lit "New") } [] none).event =
      { calendar_id := lit "c", uid := lit "u", locked := true } :=
  (C9_apply_change_frame { calendar_id := lit "c", uid := lit "u", locked := true }
    { summary := some (lit "New") } [] none).2 (by decide)

/-! ## Claim C2: the optimistic-concurrency etag gate -/

/-- C2 counterexample: a non-empty baseline etag that differs from the live
etag does NOT yield a conflict when the live etag is the empty string — the
change is applied instead (`apply_change` additionally requires
`current_event.etag` to be truthy). -/
theorem C2_counterexample :
    lit "etag-old" ≠ ([] : PyStr) ∧
    lit "etag-old" ≠ (({ calendar_id := lit "c", uid := lit "u" } : EventRecord)).etag ∧
    (applyChange { calendar_id := lit "c", uid := lit "u" }
        { summary := some (lit "New") } (lit "etag-old") none).conflicted = false ∧
    (applyChange { calendar_id := lit "c", uid := lit "u" }
        { summary := some (lit "New") } (lit "etag-old") none).event.summary = lit "New" := by
  decide

/-- C2 as amended: if the event is neither locked nor mandatory, the
baseline etag and the live etag are both non-empty, and they differ, then
`apply_change` returns the conflict `user_modified_after_planning` with the
input event unchanged. -/
theorem C2_etag_conflict (e : EventRecord) (c : Change) (b : PyStr)
    (ef : Option (List PyStr)) (hl : e.locked = false) (hm : e.mandatory = false)
    (hb : b ≠ []) (he : e.etag ≠ []) (hne : b ≠ e.etag) :
    applyChange e c b ef =
      { applied := false
        conflicted := true
        reason := lit "user_modified_after_planning"
        event := e
        blocked_fields := [] } := by
  unfold applyChange
  rw [if_neg (by simp [hl, hm]), if_pos ⟨hb, he, hne⟩]

/-- C2 witness: the amended etag gate at a concrete input. -/
theorem C2_etag_conflict_witness :
    lit "b" ≠ ([] : PyStr) ∧
    applyChange { calendar_id := lit "c", uid := lit "u", etag := lit "a" }
        { summary := some (lit "New") } (lit "b") none =
      { applied := false
        conflicted := true
        reason := lit "user_modified_after_planning"
        event := { calendar_id := lit "c", uid := lit "u", etag := lit "a" }
        blocked_fields := [] } :=
  ⟨by decide,
    C2_etag_conflict { calendar_id := lit "c", uid := lit "u", etag := lit "a" }
      { summary := some (lit "New") } (lit "b") none
      (by decide) (by decide) (by decide) (by decide) (by decide)⟩

/-! ## Per-field behaviour of the apply loop -/

theorem step_pres_start (c : Change) (ap : PyStr → Bool) (ps pe : Option Int)
    (st : EventRecord × Bool) (f : PyStr)
    (h : f = lit "end" ∨ f = lit "summary" ∨ f = lit "location" ∨ f = lit "description") :
    (applyFieldStep c ap ps pe st f).1.start = st.1.start := by
  rcases h with rfl | rfl | rfl | rfl <;>
    (unfold applyFieldStep; repeat' split) <;>
    simp_all +decide [setStrField, getStrField, changeGetStr]

theorem step_pres_end (c : Change) (ap : PyStr → Bool) (ps pe : Option Int)
    (st : EventRecord × Bool) (f : PyStr)
    (h : f = lit "start" ∨ f = lit "summary" ∨ f = lit "location" ∨ f = lit "description") :
    (applyFieldStep c ap ps pe st f).1.end_ = st.1.end_ := by
  rcases h with rfl | rfl | rfl | rfl <;>
    (unfold applyFieldStep; repeat' split) <;>
    simp_all +decide [setStrField, getStrField, changeGetStr]

theorem step_pres_summary (c : Change) (ap : PyStr → Bool) (ps pe : Option Int)
    (st : EventRecord × Bool) (f : PyStr)
    (h : f = lit "start" ∨ f = lit "end" ∨ f = lit "location" ∨ f = lit "description") :
    (applyFieldStep c ap ps pe st f).1.summary = st.1.summary := by
  rcases h with rfl | rfl | rfl | rfl <;>
    (unfold applyFieldStep; repeat' split) <;>
    simp_all +decide [setStrField, getStrField, changeGetStr]

theorem step_pres_location (c : Change) (ap : PyStr → Bool) (ps pe : Option Int)
    (st : EventRecord × Bool) (f : PyStr)
    (h : f = lit "start" ∨ f = lit "end" ∨ f = lit "summary" ∨ f = lit "description") :
    (applyFieldStep c ap ps pe st f).1.location = st.1.location := by
  rcases h with rfl | rfl | rfl | rfl <;>
    (unfold applyFieldStep; repeat' split) <;>
    simp_all +decide [setStrField, getStrField, changeGetStr]

theorem step_pres_description (c : Change) (ap : PyStr → Bool) (ps pe : Option Int)
    (st : EventRecord × Bool) (f : PyStr)
    (h : f = lit "start" ∨ f = lit "end" ∨ f = lit "summary" ∨ f = lit "location") :
    (applyFieldStep c ap ps pe st f).1.description = st.1.description := by
  rcases h with rfl | rfl | rfl | rfl <;>
    (unfold applyFieldStep; repeat' split) <;>
    simp_all +decide [setStrField, getStrField, changeGetStr]

theorem step_set_start (c : Change) (ap : PyStr → Bool) (ps pe : Option Int)
    (st : EventRecord × Bool)
    (hap : ap (lit "start") = true) (hc : c.start.isSome = true)
    (hp : ps.isSome = true) :
    (applyFieldStep c ap ps pe st (lit "start")).1.start = ps := by
  unfold applyFieldStep
  rw [if_neg (by simp [hap]), if_neg (by simp [changeHas, hc]), if_pos rfl]
  split
  · simp
  · rename_i hcond
    simp only [not_and, ne_eq, not_not] at hcond
    simp [hcond hp]

theorem step_set_end (c : Change) (ap : PyStr → Bool) (ps pe : Option Int)
    (st : EventRecord × Bool)
    (hap : ap (lit "end") = true) (hc : c.end_.isSome = true)
    (hp : pe.isSome = true) :
    (applyFieldStep c ap ps pe st (lit "end")).1.end_ = pe := by
  unfold applyFieldStep
  rw [if_neg (by simp [hap]), if_neg (by simp +decide [changeHas, hc]),
    if_neg (by decide), if_pos rfl]
  split
  · simp
  · rename_i hcond
    simp only [not_and, ne_eq, not_not] at hcond
    simp [hcond hp]

theorem step_set_summary (c : Change) (ap : PyStr → Bool) (ps pe : Option Int)
    (st : EventRecord × Bool) (s : PyStr)
    (hap : ap (lit "summary") = true) (hc : c.summary = some s) :
    (applyFieldStep c ap ps pe st (lit "summary")).1.summary = s := by
  unfold applyFieldStep
  repeat' split <;> simp_all +decide [changeHas, changeGetStr, getStrField, setStrField]

theorem step_set_location (c : Change) (ap : PyStr → Bool) (ps pe : Option Int)
    (st : EventRecord × Bool) (s : PyStr)
    (hap : ap (lit "location") = true) (hc : c.location = some s) :
    (applyFieldStep c ap ps pe st (lit "location")).1.location = s := by
  unfold applyFieldStep
  repeat' split <;> simp_all +decide [changeHas, changeGetStr, getStrField, setStrField]

theorem step_set_description (c : Change) (ap : PyStr → Bool) (ps pe : Option Int)
    (st : EventRecord × Bool) (s : PyStr)
    (hap : ap (lit "description") = true) (hc : c.description = some s) :
    (applyFieldStep c ap ps pe st (lit "description")).1.description = s := by
  unfold applyFieldStep
  repeat' split <;> simp_all +decide [changeHas, changeGetStr, getStrField, setStrField]

/-- The blocked-field list is empty whenever every allowed field is
applicable. -/
theorem blocked_empty_of_full (c : Change) (ap : PyStr → Bool)
    (h : ∀ f ∈ ALLOWED_SORTED, ap f = true) :
    ALLOWED_SORTED.filter (fun f => !ap f && changeHas c f) = [] := by
  rw [List.filter_eq_nil_iff]
  intro f hf
  simp [h f hf]

/-! ## Claim C10: empty `editable_fields` means fully editable -/

/-- C10 counterexample: an all-blank-string `editable_fields` iterable is
truthy in Python, so it is NOT treated as fully editable — the present
`summary` field is blocked and left unapplied. -/
theorem C10_counterexample :
    (applyChange { calendar_id := lit "c", uid := lit "u" }
        { summary := some (lit "New") } [] (some [lit " "])).blocked_fields =
      [lit "summary"] ∧
    (applyChange { calendar_id := lit "c", uid := lit "u" }
        { summary := some (lit "New") } [] (some [lit " "])).event.summary = [] := by
  decide

/-- C10 as amended: when `editable_fields` is `None` or the empty list,
`apply_change` treats all five allowed fields as editable: no field is
blocked, and (in the absence of the lock/etag/datetime conflicts) every
field present in the change ends up with the change's value. -/
theorem C10_empty_editable_is_fully_editable (e : EventRecord) (c : Change)
    (b : PyStr) (ef : Option (List PyStr))
    (hef : ef = none ∨ ef = some [])
    (hl : e.locked = false) (hm : e.mandatory = false)
    (hb : b = [] ∨ e.etag = [] ∨ b = e.etag)
    (ps pe : Option Int)
    (hps : parseChangeDT c.start = some ps)
    (hpe : parseChangeDT c.end_ = some pe) :
    (applyChange e c b ef).blocked_fields = [] ∧
    (applyChange e c b ef).conflicted = false ∧
    (∀ s, c.summary = some s → (applyChange e c b ef).event.summary = s) ∧
    (∀ s, c.location = some s → (applyChange e c b ef).event.location = s) ∧
    (∀ s, c.description = some s → (applyChange e c b ef).event.description = s) ∧
    (∀ t, ps = some t → (applyChange e c b ef).event.start = some t) ∧
    (∀ t, pe = some t → (applyChange e c b ef).event.end_ = some t) := by
  have h1 : ¬(e.locked = true ∨ e.mandatory = true) := by simp [hl, hm]
  have h2 : ¬(b ≠ [] ∧ e.etag ≠ [] ∧ b ≠ e.etag) := by
    rcases hb with h | h | h <;> simp [h]
  have hcs : ps.isSome = true → c.start.isSome = true := by
    intro hpt
    cases hv : c.start with
    | some v => rfl
    | none =>
      rw [hv] at hps
      simp only [parseChangeDT, Option.some.injEq] at hps
      rw [← hps] at hpt
      simp at hpt
  have hce : pe.isSome = true → c.end_.isSome = true := by
    intro hpt
    cases hv : c.end_ with
    | some v => rfl
    | none =>
      rw [hv] at hpe
      simp only [parseChangeDT, Option.some.injEq] at hpe
      rw [← hpe] at hpt
      simp at hpt
  rcases hef with rfl | rfl <;>
  · unfold applyChange
    rw [if_neg h1, if_neg h2]
    simp only [hps, hpe, APPLY_FIELD_ORDER, List.foldl_cons, List.foldl_nil]
    refine ⟨?_, trivial, ?_, ?_, ?_, ?_, ?_⟩
    · exact blocked_empty_of_full c _ (by intro f hf; fin_cases hf <;> decide)
    · intro s hs
      rw [step_pres_summary _ _ _ _ _ _ (Or.inr (Or.inr (Or.inr rfl))),
        step_pres_summary _ _ _ _ _ _ (Or.inr (Or.inr (Or.inl rfl))),
        step_set_summary _ _ _ _ _ s (by decide) hs]
    · intro s hs
      rw [step_pres_location _ _ _ _ _ _ (Or.inr (Or.inr (Or.inr rfl))),
        step_set_location _ _ _ _ _ s (by decide) hs]
    · intro s hs
      rw [step_set_description _ _ _ _ _ s (by decide) hs]
    · intro t ht
      rw [step_pres_start _ _ _ _ _ _ (Or.inr (Or.inr (Or.inr rfl))),
        step_pres_start _ _ _ _ _ _ (Or.inr (Or.inr (Or.inl rfl))),
        step_pres_start _ _ _ _ _ _ (Or.inr (Or.inl rfl)),
        step_pres_start _ _ _ _ _ _ (Or.inl rfl),
        step_set_start _ _ _ _ _ (by decide) (hcs (by simp [ht])) (by simp [ht]), ht]
    · intro t ht
      rw [step_pres_end _ _ _ _ _ _ (Or.inr (Or.inr (Or.inr rfl))),
        step_pres_end _ _ _ _ _ _ (Or.inr (Or.inr (Or.inl rfl))),
        step_pres_end _ _ _ _ _ _ (Or.inr (Or.inl rfl)),
        step_set_end _ _ _ _ _ (by decide) (hce (by simp [ht])) (by simp [ht]), ht]

/-- C10 witness: the amended statement at a concrete change carrying a
summary and a start. -/
theorem C10_empty_editable_is_fully_editable_witness :
    (applyChange { calendar_id := lit "c", uid := lit "u" }
        { summary := some (lit "New"), start := some (lit "2026-03-01T10:00:00Z") }
        [] none).blocked_fields = [] ∧
    (applyChange { calendar_id := lit "c", uid := lit "u" }
        { summary := some (lit "New"), start := some (lit "2026-03-01T10:00:00Z") }
        [] none).event.summary = lit "New" ∧
    (applyChange { calendar_id := lit "c", uid := lit "u" }
        { summary := some (lit "New"), start := some (lit "2026-03-01T10:00:00Z") }
        [] none).event.start =
      some ((parseIsoDatetime (lit "2026-03-01T10:00:00Z")).getD 0) := by
  have h := C10_empty_editable_is_fully_editable
    { calendar_id := lit "c", uid := lit "u" }
    { summary := some (lit "New"), start := some (lit "2026-03-01T10:00:00Z") }
    [] none (Or.inl rfl) (by decide) (by decide) (Or.inl rfl)
    (some ((parseIsoDatetime (lit "2026-03-01T10:00:00Z")).getD 0)) none
    (by decide) (by decide)
  exact ⟨h.1, h.2.2.1 (lit "New") rfl, h.2.2.2.2.2.1 _ rfl⟩

/-! ## JSON/YAML-style structured values

Python values flowing through the planner response and the task-block codec
are embedded as the inductive `Yv` (null, booleans, integers, strings,
lists, string-keyed insertion-ordered dicts). -/

inductive Yv where
  | null
  | bool (b : Bool)
  | int (n : Int)
  | str (s : PyStr)
  | list (items : List Yv)
  | map (entries : List (PyStr × Yv))

/-- Decimal digit character. -/
def pyDigitChar (n : Nat) : Char :=
  match n with
  | 0 => '0' | 1 => '1' | 2 => '2' | 3 => '3' | 4 => '4'
  | 5 => '5' | 6 => '6' | 7 => '7' | 8 => '8' | _ => '9'

/-- Decimal digits of a natural number, fuel-driven so that it reduces. -/
def digitLoop : Nat → Nat → PyStr → PyStr
  | 0, _, acc => acc
  | fuel + 1, n, acc =>
    if n < 10 then pyDigitChar n :: acc
    else digitLoop fuel (n / 10) (pyDigitChar (n % 10) :: acc)

/-- Python `str(n)` for a natural number. -/
def natToStr (n : Nat) : PyStr := digitLoop (n + 1) n []

/-- Python `str(n)` for an integer. -/
def intToStr : Int → PyStr
  | Int.ofNat n => natToStr n
  | Int.negSucc m => '-' :: natToStr (m + 1)

mutual

/-- Python `repr` of an embedded value: containers print their elements
with `repr`, strings are quoted, scalars print as in `str`. -/
def pyRepr : Yv → PyStr
  | .null => lit "None"
  | .bool b => if b then lit "True" else lit "False"
  | .int n => intToStr n
  | .str s => Char.ofNat 39 :: s ++ [Char.ofNat 39]
  | .list items => '[' :: pyReprItems items ++ [']']
  | .map entries => Char.ofNat 123 :: pyReprEntries entries ++ [Char.ofNat 125]

def pyReprItems : List Yv → PyStr
  | [] => []
  | [x] => pyRepr x
  | x :: y :: rest => pyRepr x ++ lit ", " ++ pyReprItems (y :: rest)

def pyReprEntries : List (PyStr × Yv) → PyStr
  | [] => []
  | (k, v) :: rest =>
    Char.ofNat 39 :: k ++ [Char.ofNat 39] ++ lit ": " ++ pyRepr v ++
      (if rest.isEmpty then [] else lit ", ") ++ pyReprEntries rest

end

/-- Python `str(v)` of an embedded value: identity on strings, `repr`-style
on containers, `None`/`True`/`False`/decimal on scalars. -/
def pyStr : Yv → PyStr
  | .str s => s
  | .null => lit "None"
  | .bool b => if b then lit "True" else lit "False"
  | .int n => intToStr n
  | .list items => pyRepr (.list items)
  | .map entries => pyRepr (.map entries)

/-- Python truthiness of an embedded value. -/
def pyTruthy : Yv → Bool
  | .null => false
  | .bool b => b
  | .int n => !(n = 0)
  | .str s => !s.isEmpty
  | .list items => !items.isEmpty
  | .map entries => !entries.isEmpty

/-- Lookup in an insertion-ordered dict (`d[k]` / `k in d`). -/
def dictGet? : List (PyStr × Yv) → PyStr → Option Yv
  | [], _ => none
  | (k, v) :: rest, key => if k = key then some v else dictGet? rest key

/-- Python `d.get(k, default)`. -/
def dictGetD (es : List (PyStr × Yv)) (k : PyStr) (dflt : Yv) : Yv :=
  (dictGet? es k).getD dflt

/-! ## Planner change normalization (`avocado/planner.py`) -/

/-- The optional-field tuple of `normalize_changes`
(`("start", "end", "summary", "location", "description", "reason")`). -/
def CHANGE_OPTIONAL_FIELDS : List PyStr :=
  [lit "start", lit "end", lit "summary", lit "location", lit "description", lit "reason"]

/-- The body of the `normalize_changes` loop for one raw mapping item. -/
def normOneChange (entries : List (PyStr × Yv)) : Option (List (PyStr × Yv)) :=
  let calendar_id := pyStrip (pyStr (dictGetD entries (lit "calendar_id") (Yv.str [])))
  let uid := pyStrip (pyStr (dictGetD entries (lit "uid") (Yv.str [])))
  if calendar_id = [] ∨ uid = [] then none
  else
    some ([(lit "calendar_id", Yv.str calendar_id), (lit "uid", Yv.str uid)] ++
      CHANGE_OPTIONAL_FIELDS.filterMap (fun f =>
        match dictGet? entries f with
        | none => none
        | some Yv.null => none
        | some v => some (f, v)))

/-- `normalize_changes` from `avocado/planner.py`. -/
def normalizeChanges (raw : List Yv) : List (List (PyStr × Yv)) :=
  raw.filterMap (fun item =>
    match item with
    | .map entries => normOneChange entries
    | _ => none)

/-! ## Claim C5: shape of normalized planner changes -/

/-- C5 counterexample: a raw change with non-empty ids and a non-null
`category` loses the category under normalization (the code's optional
field tuple has no `"category"` entry). -/
theorem C5_counterexample :
    (normalizeChanges [Yv.map [(lit "calendar_id", Yv.str (lit "c")),
        (lit "uid", Yv.str (lit "u")),
        (lit "category", Yv.str (lit "study"))]]).length = 1 ∧
    ∀ d ∈ normalizeChanges [Yv.map [(lit "calendar_id", Yv.str (lit "c")),
        (lit "uid", Yv.str (lit "u")),
        (lit "category", Yv.str (lit "study"))]],
      (dictGet? d (lit "category")).isNone = true := by
  decide

/-- The keep-condition of the amended C5, written from the claim's words:
an element is kept iff it is a mapping whose stringified-and-stripped
`calendar_id` and `uid` are non-empty. -/
def specKeepsChange (item : Yv) : Bool :=
  match item with
  | .map es =>
    !(pyStrip (pyStr (dictGetD es (lit "calendar_id") (Yv.str [])))).isEmpty &&
    !(pyStrip (pyStr (dictGetD es (lit "uid") (Yv.str [])))).isEmpty
  | _ => false

/-- The output shape of the amended C5, written from the claim's words:
the stringified-and-stripped required ids, plus exactly those of
`start`, `end`, `summary`, `location`, `description`, `reason` that are
present and non-null in the raw change — nothing else (in particular no
`category`). -/
def specNormalizedChange (item : Yv) : List (PyStr × Yv) :=
  match item with
  | .map es =>
    [(lit "calendar_id", Yv.str (pyStrip (pyStr (dictGetD es (lit "calendar_id") (Yv.str []))))),
     (lit "uid", Yv.str (pyStrip (pyStr (dictGetD es (lit "uid") (Yv.str [])))))] ++
      CHANGE_OPTIONAL_FIELDS.filterMap (fun f =>
        match dictGet? es f with
        | none => none
        | some Yv.null => none
        | some v => some (f, v))
  | _ => []

/-- C5 as amended: `normalize_changes` keeps exactly the mapping elements
with non-empty stringified ids and maps each to the claim-shaped
normalized change (without `category`). -/
theorem C5_normalize_changes_shape (raw : List Yv) :
    normalizeChanges raw = (raw.filter specKeepsChange).map specNormalizedChange := by
  induction raw with
  | nil => rfl
  | cons item rest ih =>
    unfold normalizeChanges at ih ⊢
    cases item with
    | map es =>
      simp only [List.filterMap_cons, List.filter_cons]
      by_cases hc : pyStrip (pyStr (dictGetD es (lit "calendar_id") (Yv.str []))) = []
      · have hno : normOneChange es = none := by
          unfold normOneChange
          rw [if_pos (Or.inl hc)]
        have hsk : specKeepsChange (Yv.map es) = false := by
          simp only [specKeepsChange]
          rw [hc]
          rfl
        simp only [hno, hsk]
        exact ih
      · by_cases hu : pyStrip (pyStr (dictGetD es (lit "uid") (Yv.str []))) = []
        · have hno : normOneChange es = none := by
            unfold normOneChange
            rw [if_pos (Or.inr hu)]
          have hsk : specKeepsChange (Yv.map es) = false := by
            simp only [specKeepsChange]
            rw [hu]
            simp
          simp only [hno, hsk]
          exact ih
        · have hno : normOneChange es =
              some ([(lit "calendar_id",
                  Yv.str (pyStrip (pyStr (dictGetD es (lit "calendar_id") (Yv.str []))))),
                (lit "uid", Yv.str (pyStrip (pyStr (dictGetD es (lit "uid") (Yv.str [])))))] ++
                CHANGE_OPTIONAL_FIELDS.filterMap (fun f =>
                  match dictGet? es f with
                  | none => none
                  | some Yv.null => none
                  | some v => some (f, v))) := by
            unfold normOneChange
            rw [if_neg (by simp [hc, hu])]
          have hsk : specKeepsChange (Yv.map es) = true := by
            simp only [specKeepsChange]
            simp [List.isEmpty_iff, hc, hu]
          simp only [hno, hsk, if_true, List.map_cons]
          rw [← ih]
          rfl
    | null => exact ih
    | bool b => exact ih
    | int n => exact ih
    | str s => exact ih
    | list items => exact ih

/-! ## SHA-1 (`hashlib.sha1`, used by `_staging_uid`)

`_staging_uid` prefixes a UID with the first ten hex characters of the
SHA-1 of the UTF-8 encoded calendar id.  SHA-1 itself is the stdlib
`hashlib` implementation; it is embedded here in full so that the UID
codec is executable. -/

/-- Truncation to 32 bits. -/
def w32 (n : Nat) : Nat := n % 4294967296

/-- 32-bit left rotation. -/
def rotl (k x : Nat) : Nat := w32 ((x <<< k) ||| (x >>> (32 - k)))

/-- UTF-8 encoding of one character. -/
def utf8Char (c : Char) : List Nat :=
  let n := c.toNat
  if n < 128 then [n]
  else if n < 2048 then [192 ||| (n >>> 6), 128 ||| (n &&& 63)]
  else if n < 65536 then
    [224 ||| (n >>> 12), 128 ||| ((n >>> 6) &&& 63), 128 ||| (n &&& 63)]
  else
    [240 ||| (n >>> 18), 128 ||| ((n >>> 12) &&& 63),
      128 ||| ((n >>> 6) &&& 63), 128 ||| (n &&& 63)]

/-- Python `s.encode("utf-8")`. -/
def utf8Bytes (s : PyStr) : List Nat := s.flatMap utf8Char

/-- Big-endian 8-byte encoding of a 64-bit length. -/
def be64 (n : Nat) : List Nat :=
  [(n >>> 56) &&& 255, (n >>> 48) &&& 255, (n >>> 40) &&& 255, (n >>> 32) &&& 255,
   (n >>> 24) &&& 255, (n >>> 16) &&& 255, (n >>> 8) &&& 255, n &&& 255]

/-- SHA-1 message padding. -/
def sha1Pad (msg : List Nat) : List Nat :=
  let len := msg.length
  let padZeros := (64 + 56 - ((len + 1) % 64)) % 64
  msg ++ [128] ++ List.replicate padZeros 0 ++ be64 (len * 8)

/-- Big-endian packing of bytes into 32-bit words. -/
def bytesToWords : List Nat → List Nat
  | b0 :: b1 :: b2 :: b3 :: rest =>
    ((((b0 <<< 8) ||| b1) <<< 8 ||| b2) <<< 8 ||| b3) :: bytesToWords rest
  | _ => []

/-- Split a word list into `k` chunks of 16 words. -/
def chunks16 : Nat → List Nat → List (List Nat)
  | 0, _ => []
  | k + 1, ws => ws.take 16 :: chunks16 k (ws.drop 16)

/-- Extend a 16-word chunk by `k` schedule words. -/
def extendWords : Nat → List Nat → List Nat
  | 0, w => w
  | k + 1, w =>
    let i := w.length
    extendWords k (w ++ [rotl 1 ((w.getD (i - 3) 0) ^^^ (w.getD (i - 8) 0) ^^^
      (w.getD (i - 14) 0) ^^^ (w.getD (i - 16) 0))])

/-- The SHA-1 round function. -/
def sha1F (i b c d : Nat) : Nat :=
  if i < 20 then (b &&& c) ||| ((b ^^^ 4294967295) &&& d)
  else if i < 40 then b ^^^ c ^^^ d
  else if i < 60 then (b &&& c) ||| (b &&& d) ||| (c &&& d)
  else b ^^^ c ^^^ d

/-- The SHA-1 round constants. -/
def sha1K (i : Nat) : Nat :=
  if i < 20 then 1518500249
  else if i < 40 then 1859775393
  else if i < 60 then 2400959708
  else 3395469782

/-- The 80 SHA-1 rounds over the schedule words. -/
def sha1Rounds : List Nat → Nat → Nat × Nat × Nat × Nat × Nat → Nat × Nat × Nat × Nat × Nat
  | [], _, st => st
  | wi :: rest, i, (a, b, c, d, e) =>
    let temp := w32 (rotl 5 a + sha1F i b c d + e + sha1K i + wi)
    sha1Rounds rest (i + 1) (temp, a, rotl 30 b, c, d)

/-- Compression of one 16-word chunk into the running state. -/
def sha1Chunk (h : Nat × Nat × Nat × Nat × Nat) (chunk : List Nat) :
    Nat × Nat × Nat × Nat × Nat :=
  let w := extendWords 64 chunk
  match sha1Rounds w 0 h with
  | (a, b, c, d, e) =>
    (w32 (h.1 + a), w32 (h.2.1 + b), w32 (h.2.2.1 + c), w32 (h.2.2.2.1 + d),
      w32 (h.2.2.2.2 + e))

/-- SHA-1 digest of a byte string, as five 32-bit words. -/
def sha1Digest (msg : List Nat) : Nat × Nat × Nat × Nat × Nat :=
  let ws := bytesToWords (sha1Pad msg)
  (chunks16 (ws.length / 16) ws).foldl sha1Chunk
    (1732584193, 4023233417, 2562383102, 271733878, 3285377520)

/-- Lower-case hexadecimal digit characters. -/
def hexDigitChar (n : Nat) : Char :=
  match n with
  | 0 => '0' | 1 => '1' | 2 => '2' | 3 => '3' | 4 => '4'
  | 5 => '5' | 6 => '6' | 7 => '7' | 8 => '8' | 9 => '9'
  | 10 => 'a' | 11 => 'b' | 12 => 'c' | 13 => 'd' | 14 => 'e' | _ => 'f'

/-- Eight hex characters of one 32-bit word. -/
def wordToHex8 (x : Nat) : PyStr :=
  [hexDigitChar (x / 268435456 % 16), hexDigitChar (x / 16777216 % 16),
   hexDigitChar (x / 1048576 % 16), hexDigitChar (x / 65536 % 16),
   hexDigitChar (x / 4096 % 16), hexDigitChar (x / 256 % 16),
   hexDigitChar (x / 16 % 16), hexDigitChar (x % 16)]

/-- `hashlib.sha1(value.encode("utf-8")).hexdigest()`. -/
def sha1Hex (s : PyStr) : PyStr :=
  match sha1Digest (utf8Bytes s) with
  | (a, b, c, d, e) =>
    wordToHex8 a ++ wordToHex8 b ++ wordToHex8 c ++ wordToHex8 d ++ wordToHex8 e

/-! ## UID codec (`avocado/sync_engine.py`) -/

/-- `_staging_uid` from `avocado/sync_engine.py`:
`f"{sha1(calendar_id)[:10]}:{uid}"`. -/
def stagingUid (calendar_id uid : PyStr) : PyStr :=
  (sha1Hex calendar_id).take 10 ++ ':' :: uid

/-- The character class `[0-9a-f]`. -/
def isHexChar (c : Char) : Bool :=
  ('0' ≤ c && c ≤ '9') || ('a' ≤ c && c ≤ 'f')

/-- `re.fullmatch(r"[0-9a-f]{10}", segment)` as a boolean. -/
def isHexSeg (seg : PyStr) : Bool :=
  seg.length = 10 && seg.all isHexChar

/-- `_managed_uid_prefix_depth` from `avocado/sync_engine.py`: the number
of leading ten-hex-character `:`-separated segments before the tail
(the loop with `break` is the `takeWhile` over `parts[:-1]`). -/
def managedUidPrefixDepth (uid : PyStr) : Nat :=
  if uid = [] then 0
  else (((uid.splitOn ':').dropLast).takeWhile isHexSeg).length

/-- `_collapse_nested_managed_uid` from `avocado/sync_engine.py`: keep
only the right-most managed prefix when the depth exceeds one. -/
def collapseNestedManagedUid (uid : PyStr) : PyStr :=
  let depth := managedUidPrefixDepth uid
  if depth ≤ 1 then uid
  else List.intercalate [':'] ((uid.splitOn ':').drop (depth - 1))

/-! ## UID codec lemmas -/

theorem hexDigitChar_isHex (n : Nat) : isHexChar (hexDigitChar n) = true := by
  unfold hexDigitChar
  split <;> decide

theorem isHexChar_ne_colon {c : Char} (h : isHexChar c = true) : ¬(c == ':') = true := by
  intro hc
  rw [beq_iff_eq] at hc
  subst hc
  exact absurd h (by decide)

theorem wordToHex8_hex (x : Nat) : ∀ c ∈ wordToHex8 x, isHexChar c = true := by
  intro c hc
  unfold wordToHex8 at hc
  simp only [List.mem_cons, List.not_mem_nil, or_false] at hc
  rcases hc with rfl | rfl | rfl | rfl | rfl | rfl | rfl | rfl <;>
    exact hexDigitChar_isHex _

theorem sha1Hex_hex (s : PyStr) : ∀ c ∈ sha1Hex s, isHexChar c = true := by
  intro c hc
  unfold sha1Hex at hc
  rcases hds : sha1Digest (utf8Bytes s) with ⟨a, b, c0, d, e⟩
  rw [hds] at hc
  simp only [List.mem_append] at hc
  rcases hc with ((((hc | hc) | hc) | hc) | hc) <;> exact wordToHex8_hex _ c hc

theorem sha1Hex_length (s : PyStr) : (sha1Hex s).length = 40 := by
  unfold sha1Hex
  rcases hds : sha1Digest (utf8Bytes s) with ⟨a, b, c0, d, e⟩
  simp [wordToHex8]

theorem sha1Hex_take10_isHexSeg (s : PyStr) : isHexSeg ((sha1Hex s).take 10) = true := by
  unfold isHexSeg
  rw [Bool.and_eq_true]
  constructor
  · rw [decide_eq_true_iff, List.length_take, sha1Hex_length]
    rfl
  · rw [List.all_eq_true]
    intro c hc
    exact sha1Hex_hex s c (List.mem_of_mem_take hc)

theorem splitOn_colon_ne_nil (l : PyStr) : l.splitOn ':' ≠ [] := by
  unfold List.splitOn
  exact List.splitOnP_ne_nil _ l

theorem splitOn_colon_append {p u : PyStr} (hp : ∀ c ∈ p, isHexChar c = true) :
    (p ++ ':' :: u).splitOn ':' = p :: u.splitOn ':' := by
  unfold List.splitOn
  exact List.splitOnP_first _ p (fun x hx => isHexChar_ne_colon (hp x hx)) ':' rfl u

theorem mem_splitOnP_not_sep {p : Char → Bool} :
    ∀ (l : PyStr), ∀ s ∈ l.splitOnP p, ∀ c ∈ s, ¬p c = true := by
  intro l
  induction l with
  | nil =>
    intro s hs c hc
    rw [List.splitOnP_nil, List.mem_singleton] at hs
    subst hs
    simp at hc
  | cons a rest ih =>
    intro s hs c hc
    rw [List.splitOnP_cons] at hs
    cases hpa : p a with
    | true =>
      rw [hpa, if_pos rfl] at hs
      rcases List.mem_cons.mp hs with rfl | hs2
      · simp at hc
      · exact ih s hs2 c hc
    | false =>
      rw [hpa] at hs
      simp only [Bool.false_eq_true, if_false] at hs
      rcases hsp : rest.splitOnP p with _ | ⟨h0, t⟩
      · exact absurd hsp (List.splitOnP_ne_nil p rest)
      · rw [hsp, List.modifyHead_cons] at hs
        rcases List.mem_cons.mp hs with rfl | hs2
        · rcases List.mem_cons.mp hc with rfl | hc2
          · intro hfalse
            rw [hpa] at hfalse
            exact Bool.false_ne_true hfalse
          · exact ih h0 (by rw [hsp]; exact List.mem_cons_self h0 t) c hc2
        · exact ih s (by rw [hsp]; exact List.mem_cons_of_mem h0 hs2) c hc

theorem mem_splitOn_colon_ne {l : PyStr} {s : PyStr} (hs : s ∈ l.splitOn ':') :
    ':' ∉ s := by
  intro hc
  have h := @mem_splitOnP_not_sep (fun x => x == ':') l s (by
    unfold List.splitOn at hs
    exact hs) ':' hc
  simp at h

/-- `managedUidPrefixDepth` without the empty-string special case (which
coincides with it on the empty string). -/
theorem depth_eq_core (u : PyStr) :
    managedUidPrefixDepth u = (((u.splitOn ':').dropLast).takeWhile isHexSeg).length := by
  unfold managedUidPrefixDepth
  by_cases h : u = []
  · subst h
    rw [if_pos rfl]
    decide
  · rw [if_neg h]

theorem depth_cons_hexSeg (p u : PyStr) (hp : isHexSeg p = true) :
    managedUidPrefixDepth (p ++ ':' :: u) = 1 + managedUidPrefixDepth u := by
  have hchars : ∀ c ∈ p, isHexChar c = true := by
    have := (Bool.and_eq_true _ _).mp hp
    exact fun c hc => (List.all_eq_true.mp this.2) c hc
  rw [depth_eq_core, depth_eq_core, splitOn_colon_append hchars,
    List.dropLast_cons_of_ne_nil (splitOn_colon_ne_nil u),
    List.takeWhile_cons_of_pos hp, List.length_cons, Nat.add_comm]

/-- The contract half `depth(staging_uid(c,u)) = 1 + depth(u)`. -/
theorem depth_stagingUid (c u : PyStr) :
    managedUidPrefixDepth (stagingUid c u) = 1 + managedUidPrefixDepth u := by
  unfold stagingUid
  exact depth_cons_hexSeg _ u (sha1Hex_take10_isHexSeg c)

theorem collapse_of_depth_le_one {u : PyStr} (h : managedUidPrefixDepth u ≤ 1) :
    collapseNestedManagedUid u = u := by
  unfold collapseNestedManagedUid
  rw [if_pos h]

theorem takeWhile_dropWhile_nil {α : Type} {p : α → Bool} :
    ∀ l : List α, (l.dropWhile p).takeWhile p = [] := by
  intro l
  induction l with
  | nil => rfl
  | cons a rest ih =>
    rw [List.dropWhile_cons]
    cases hpa : p a with
    | true => simpa [hpa] using ih
    | false => simp [hpa, List.takeWhile_cons, hpa]

theorem depth_collapse_eq_one {u : PyStr} (h : 2 ≤ managedUidPrefixDepth u) :
    managedUidPrefixDepth (collapseNestedManagedUid u) = 1 := by
  have hpartsne : u.splitOn ':' ≠ [] := splitOn_colon_ne_nil u
  have hLlast : (u.splitOn ':').dropLast ++ [(u.splitOn ':').getLast hpartsne] =
      u.splitOn ':' := List.dropLast_append_getLast hpartsne
  have hL : ((u.splitOn ':').dropLast).takeWhile isHexSeg ++
      ((u.splitOn ':').dropLast).dropWhile isHexSeg = (u.splitOn ':').dropLast :=
    List.takeWhile_append_dropWhile isHexSeg ((u.splitOn ':').dropLast)
  have hd : managedUidPrefixDepth u =
      (((u.splitOn ':').dropLast).takeWhile isHexSeg).length := depth_eq_core u
  have hcol : collapseNestedManagedUid u =
      List.intercalate [':'] ((u.splitOn ':').drop (managedUidPrefixDepth u - 1)) := by
    unfold collapseNestedManagedUid
    rw [if_neg (by omega)]
  have hdle : managedUidPrefixDepth u - 1 ≤
      (((u.splitOn ':').dropLast).takeWhile isHexSeg).length := by omega
  have hsplit1 : (u.splitOn ':').drop (managedUidPrefixDepth u - 1) =
      (((u.splitOn ':').dropLast).takeWhile isHexSeg).drop (managedUidPrefixDepth u - 1) ++
        (((u.splitOn ':').dropLast).dropWhile isHexSeg ++
          [(u.splitOn ':').getLast hpartsne]) := by
    conv_lhs => rw [← hLlast, ← hL]
    rw [List.append_assoc, List.drop_append_of_le_length hdle]
  have hlen1 : ((((u.splitOn ':').dropLast).takeWhile isHexSeg).drop
      (managedUidPrefixDepth u - 1)).length = 1 := by
    rw [List.length_drop]
    omega
  obtain ⟨e, he⟩ := List.length_eq_one.mp hlen1
  have heHex : isHexSeg e = true := by
    have hmem : e ∈ ((u.splitOn ':').dropLast).takeWhile isHexSeg :=
      List.mem_of_mem_drop (he ▸ List.mem_singleton_self e)
    exact List.mem_takeWhile_imp hmem
  have hdrop : (u.splitOn ':').drop (managedUidPrefixDepth u - 1) =
      e :: (((u.splitOn ':').dropLast).dropWhile isHexSeg ++
        [(u.splitOn ':').getLast hpartsne]) := by
    rw [hsplit1, he]
    rfl
  have hnocolon : ∀ l ∈ (u.splitOn ':').drop (managedUidPrefixDepth u - 1), ':' ∉ l :=
    fun l hl => mem_splitOn_colon_ne (List.mem_of_mem_drop hl)
  have hsp2 : (List.intercalate [':']
      ((u.splitOn ':').drop (managedUidPrefixDepth u - 1))).splitOn ':' =
      (u.splitOn ':').drop (managedUidPrefixDepth u - 1) :=
    List.splitOn_intercalate _ ':' hnocolon (by rw [hdrop]; exact List.cons_ne_nil _ _)
  rw [hcol, depth_eq_core, hsp2, hdrop,
    List.dropLast_cons_of_ne_nil (by simp), List.dropLast_concat,
    List.takeWhile_cons_of_pos heHex, takeWhile_dropWhile_nil]
  rfl

/-! ## Claims C7 and C1: UID codec contract -/

/-- C7: namespacing adds exactly one prefix level
(`depth(staging_uid(c,u)) = 1 + depth(u)`), and the nested-prefix collapse
is idempotent. -/
theorem C7_uid_codec_contract :
    (∀ c u : PyStr, managedUidPrefixDepth (stagingUid c u) = 1 + managedUidPrefixDepth u) ∧
    ∀ u : PyStr, collapseNestedManagedUid (collapseNestedManagedUid u) =
      collapseNestedManagedUid u := by
  refine ⟨depth_stagingUid, ?_⟩
  intro u
  by_cases h : managedUidPrefixDepth u ≤ 1
  · rw [collapse_of_depth_le_one h]
    exact collapse_of_depth_le_one h
  · exact collapse_of_depth_le_one (by
      rw [depth_collapse_eq_one (by omega)])

set_option maxRecDepth 100000 in
/-- C1 counterexample: for a uid that is itself already namespaced,
`collapse(staging_uid(c, u))` has depth two and the collapse strips the
freshly added prefix, so the namespaced UID is NOT a fixed point. -/
theorem C1_counterexample :
    collapseNestedManagedUid (stagingUid (lit "cal-1") (lit "76044593b8:plain-uid")) =
      lit "76044593b8:plain-uid" ∧
    collapseNestedManagedUid (stagingUid (lit "cal-1") (lit "76044593b8:plain-uid")) ≠
      stagingUid (lit "cal-1") (lit "76044593b8:plain-uid") := by
  constructor
  · decide
  · decide

/-- C1 as amended: for every calendar id and every RAW uid (depth zero,
i.e. not already carrying a managed prefix), the namespaced UID is a fixed
point of the nested-prefix collapse. -/
theorem C1_collapse_staging_fixed_point (c u : PyStr)
    (h : managedUidPrefixDepth u = 0) :
    collapseNestedManagedUid (stagingUid c u) = stagingUid c u :=
  collapse_of_depth_le_one (by rw [depth_stagingUid, h])

set_option maxRecDepth 100000 in
/-- C1 witness: the amended fixed-point statement at a concrete raw uid. -/
theorem C1_collapse_staging_fixed_point_witness :
    managedUidPrefixDepth (lit "plain-uid") = 0 ∧
    collapseNestedManagedUid (stagingUid (lit "cal-1") (lit "plain-uid")) =
      stagingUid (lit "cal-1") (lit "plain-uid") :=
  ⟨by decide, C1_collapse_staging_fixed_point (lit "cal-1") (lit "plain-uid") (by decide)⟩

/-! ## Task-block codec (`avocado/task_block.py`)

The delimiter search embeds the regex
`\[AI Task\]\s*\n(.*?)\n\[/AI Task\]` (DOTALL) with Python's
leftmost-match, greedy-`\s*`, lazy-body semantics.  The YAML codec used on
the block body is the external PyYAML library and is modelled from the
spec ("interpret its body as a structured mapping", "on any parse failure
return absent"): a line-oriented `key: value` mapping with flow-style
values, whose loader fails on malformed input (unterminated quotes,
unclosed braces, non-mapping multi-line bodies) exactly where the claims
need the failure behaviour of `yaml.safe_load`. -/

/-- The `[AI Task]` opening delimiter. -/
def openTag : PyStr := lit "[AI Task]"

/-- The `\n[/AI Task]` closing-delimiter search pattern. -/
def closeTagNl : PyStr := '\n' :: lit "[/AI Task]"

/-- Split a string at the earliest occurrence of `pat`, returning the text
before the occurrence and the text after it. -/
def splitFirstSub (pat : PyStr) : PyStr → Option (PyStr × PyStr)
  | [] => if pat.isPrefixOf [] then some ([], []) else none
  | c :: rest =>
    if pat.isPrefixOf (c :: rest) then some ([], (c :: rest).drop pat.length)
    else
      match splitFirstSub pat rest with
      | some (pre, post) => some (c :: pre, post)
      | none => none

/-- Match `\s*\n(.*?)\n\[/AI Task\]` against the text following the
opening delimiter: the greedy `\s*\n` takes the largest whitespace-run
split whose tail still contains a closing delimiter, and the lazy body
ends at the earliest closing delimiter after it.  Returns `(body, post)`. -/
def matchAfterOpen (aft : PyStr) : Option (PyStr × PyStr) :=
  let run := aft.takeWhile isPySpace
  let cands := (List.range run.length).filter (fun t =>
    aft.getD t ' ' = '\n' && (splitFirstSub closeTagNl (aft.drop (t + 1))).isSome)
  match cands.max? with
  | none => none
  | some t => splitFirstSub closeTagNl (aft.drop (t + 1))

/-- `AI_TASK_PATTERN.search`: the leftmost match of the delimited block,
as `(pre, body, post)`. -/
def findAiTaskBlock : PyStr → Option (PyStr × PyStr × PyStr)
  | [] => none
  | c :: rest =>
    if openTag.isPrefixOf (c :: rest) then
      match matchAfterOpen ((c :: rest).drop openTag.length) with
      | some (body, post) => some ([], body, post)
      | none => (findAiTaskBlock rest).map (fun r => (c :: r.1, r.2.1, r.2.2))
    else (findAiTaskBlock rest).map (fun r => (c :: r.1, r.2.1, r.2.2))

/-- `AI_TASK_PATTERN.sub(repl, s)`: replace every (leftmost, non-
overlapping) match, continuing after each replacement. -/
def subAiTaskBlocks : Nat → PyStr → PyStr → PyStr
  | 0, _, s => s
  | fuel + 1, repl, s =>
    match findAiTaskBlock s with
    | none => s
    | some (pre, _, post) => pre ++ repl ++ subAiTaskBlocks fuel repl post

/-- Split a flow container body on `", "` separators. -/
def splitCommaSep : PyStr → List PyStr
  | [] => [[]]
  | ',' :: ' ' :: rest => [] :: splitCommaSep rest
  | c :: rest =>
    match splitCommaSep rest with
    | [] => [[c]]
    | h :: t => (c :: h) :: t

/-- Split a mapping line at the first `": "`, returning key and value
text. -/
def splitFirstColonSp : PyStr → Option (PyStr × PyStr)
  | [] => none
  | ':' :: ' ' :: rest => some ([], rest)
  | c :: rest => (splitFirstColonSp rest).map (fun r => (c :: r.1, r.2))

/-- Test for a decimal integer literal. -/
def isIntLit (s : PyStr) : Bool :=
  match s with
  | '-' :: ds => !ds.isEmpty && ds.all (fun c => 48 ≤ c.toNat && c.toNat ≤ 57)
  | ds => !ds.isEmpty && ds.all (fun c => 48 ≤ c.toNat && c.toNat ≤ 57)

/-- Value of a decimal integer literal. -/
def parseIntLit (s : PyStr) : Int :=
  match s with
  | '-' :: ds => -(Int.ofNat (ds.foldl (fun acc c => acc * 10 + (c.toNat - 48)) 0))
  | ds => Int.ofNat (ds.foldl (fun acc c => acc * 10 + (c.toNat - 48)) 0)

/-- Modelled from the spec: the flow-style scalar/container grammar of
the YAML codec.  Fails (like `yaml.safe_load`) on an unterminated quoted
scalar or an unclosed flow container. -/
def parseFlow : Nat → PyStr → Except Unit Yv
  | 0, _ => .error ()
  | fuel + 1, s =>
    if s = lit "null" then .ok .null
    else if s = lit "true" then .ok (.bool true)
    else if s = lit "false" then .ok (.bool false)
    else if isIntLit s then .ok (.int (parseIntLit s))
    else
      match s with
      | [] => .ok .null
      | c :: rest =>
        if c = Char.ofNat 39 ∨ c = '"' then
          if rest.getLast? = some c ∧ ¬c ∈ rest.dropLast then .ok (.str rest.dropLast)
          else .error ()
        else if c = '[' then
          if rest.getLast? = some ']' then
            if rest.dropLast = [] then .ok (.list [])
            else ((splitCommaSep rest.dropLast).mapM (parseFlow fuel)).map Yv.list
          else .error ()
        else if c = Char.ofNat 123 then
          if rest.getLast? = some (Char.ofNat 125) then
            if rest.dropLast = [] then .ok (.map [])
            else ((splitCommaSep rest.dropLast).mapM (fun pair =>
              match splitFirstColonSp pair with
              | none => Except.error ()
              | some (k, vtext) =>
                if k = [] then Except.error ()
                else (parseFlow fuel vtext).map (fun v => (k, v)))).map Yv.map
          else .error ()
        else .ok (.str (pyStrip s))

/-- Modelled from the spec: one `key: value` line of the block body. -/
def parseKvLines (fuel : Nat) : List PyStr → Except Unit (List (PyStr × Yv))
  | [] => .ok []
  | line :: rest =>
    match splitFirstColonSp line with
    | none => .error ()
    | some (k, vtext) =>
      if k = [] then .error ()
      else
        match parseFlow fuel vtext with
        | .error e => .error e
        | .ok v =>
          match parseKvLines fuel rest with
          | .error e => .error e
          | .ok pairs => .ok ((k, v) :: pairs)

/-- Modelled from the spec: `yaml.safe_load` on a block body — a
structured mapping of `key: value` lines, a scalar for a single
non-mapping line, `None` for the empty body, and a raised error
otherwise. -/
def yamlSafeLoad (s : PyStr) : Except Unit Yv :=
  match s with
  | [] => .ok .null
  | _ =>
    match s.splitOn '\n' with
    | [single] =>
      match splitFirstColonSp single with
      | some _ => (parseKvLines (s.length + 1) [single]).map Yv.map
      | none => parseFlow (s.length + 1) single
    | lines => (parseKvLines (s.length + 1) lines).map Yv.map

/-- Modelled from the spec: `yaml.safe_dump(..., sort_keys=False)` of a
mapping, one `key: value` line per entry with flow-style values.  The
model serializes containers to the nesting depth the task-block schema
uses. -/
def yamlFlowDump : Nat → Yv → PyStr
  | 0, _ => []
  | fuel + 1, v =>
    match v with
    | .null => lit "null"
    | .bool true => lit "true"
    | .bool false => lit "false"
    | .int n => intToStr n
    | .str s => Char.ofNat 39 :: s ++ [Char.ofNat 39]
    | .list items => '[' :: List.intercalate (lit ", ") (items.map (yamlFlowDump fuel)) ++ [']']
    | .map es => Char.ofNat 123 ::
        List.intercalate (lit ", ")
          (es.map (fun kv => kv.1 ++ lit ": " ++ yamlFlowDump fuel kv.2)) ++ [Char.ofNat 125]

/-- Modelled from the spec: serialize a task mapping as the block body. -/
def yamlDumpBody (es : List (PyStr × Yv)) : PyStr :=
  match es with
  | [] => [Char.ofNat 123, Char.ofNat 125]
  | _ => List.intercalate ['\n'] (es.map (fun kv => kv.1 ++ lit ": " ++ yamlFlowDump 3 kv.2))

/-- `parse_ai_task_block` from `avocado/task_block.py`.  The `Except`
layer carries the exception that `yaml.safe_load` may raise (the source
has no handler around it). -/
def parseAiTaskBlock (description : PyStr) : Except Unit (Option (List (PyStr × Yv))) :=
  match description with
  | [] => .ok none
  | _ =>
    match findAiTaskBlock description with
    | none => .ok none
    | some (_, body, _) =>
      match yamlSafeLoad body with
      | .error e => .error e
      | .ok payload =>
        let payload := if pyTruthy payload then payload else Yv.map []
        match payload with
        | .map entries => .ok (some entries)
        | _ => .ok none

/-- `DEFAULT_EDITABLE_FIELDS` from `avocado/models.py`. -/
def DEFAULT_EDITABLE_FIELDS : List PyStr :=
  [lit "start", lit "end", lit "summary", lit "location", lit "description"]

/-- `TaskDefaultsConfig` from `avocado/models.py`. -/
structure TaskDefaultsConfig where
  locked : Bool := false
  mandatory : Bool := false
  editable_fields : List PyStr := DEFAULT_EDITABLE_FIELDS

/-- `build_default_task` from `avocado/task_block.py`; `now` is the
`_now_iso()` clock reading. -/
def buildDefaultTask (defaults : TaskDefaultsConfig) (now : PyStr) : List (PyStr × Yv) :=
  [(lit "version", Yv.int 1),
   (lit "locked", Yv.bool defaults.locked),
   (lit "mandatory", Yv.bool defaults.mandatory),
   (lit "editable_fields", Yv.list
     ((if defaults.editable_fields.isEmpty then DEFAULT_EDITABLE_FIELDS
       else defaults.editable_fields).map Yv.str)),
   (lit "user_intent", Yv.str []),
   (lit "constraints", Yv.map
     [(lit "earliest_start", Yv.null),
      (lit "latest_end", Yv.null),
      (lit "avoid_overlap_with_mandatory", Yv.bool true)]),
   (lit "priority", Yv.str (lit "medium")),
   (lit "source", Yv.str (lit "system")),
   (lit "last_editor", Yv.str (lit "system")),
   (lit "updated_at", Yv.str now)]

/-- Python `d[k] = v` on an insertion-ordered dict. -/
def dictSet : List (PyStr × Yv) → PyStr → Yv → List (PyStr × Yv)
  | [], k, v => [(k, v)]
  | (k0, v0) :: rest, k, v =>
    if k0 = k then (k0, v) :: rest else (k0, v0) :: dictSet rest k v

/-- Python `base.update(upd)`. -/
def dictUpdate (base upd : List (PyStr × Yv)) : List (PyStr × Yv) :=
  upd.foldl (fun acc kv => dictSet acc kv.1 kv.2) base

/-- `_normalize_task` from `avocado/task_block.py`.  The `Except` layer
carries the `AttributeError` the source raises when the parsed
`constraints` value is not a mapping (`default_constraints.update`). -/
def normalizeTask (parsed : List (PyStr × Yv)) (defaults : TaskDefaultsConfig)
    (now : PyStr) : Except Unit (List (PyStr × Yv)) :=
  let normalized := dictUpdate (buildDefaultTask defaults now) parsed
  let editable_fields :=
    dictGetD normalized (lit "editable_fields") (Yv.list (defaults.editable_fields.map Yv.str))
  let ef_list :=
    match editable_fields with
    | Yv.list items => items
    | _ => defaults.editable_fields.map Yv.str
  let cleaned := (ef_list.map (fun x => pyStrip (pyStr x))).filter (fun s => ¬s.isEmpty)
  let normalized := dictSet normalized (lit "editable_fields")
    (Yv.list (if cleaned.isEmpty then DEFAULT_EDITABLE_FIELDS.map Yv.str
      else cleaned.map Yv.str))
  let constraints :=
    match dictGetD normalized (lit "constraints") (Yv.map []) with
    | Yv.map es => es
    | _ => []
  match dictGetD normalized (lit "constraints") Yv.null with
  | Yv.map defes =>
    let normalized := dictSet normalized (lit "constraints") (Yv.map (dictUpdate defes constraints))
    let normalized := dictSet normalized (lit "locked")
      (Yv.bool (pyTruthy (dictGetD normalized (lit "locked") (Yv.bool defaults.locked))))
    let normalized := dictSet normalized (lit "mandatory")
      (Yv.bool (pyTruthy (dictGetD normalized (lit "mandatory") (Yv.bool defaults.mandatory))))
    let upd := dictGetD normalized (lit "updated_at") Yv.null
    .ok (dictSet normalized (lit "updated_at")
      (Yv.str (pyStr (if pyTruthy upd then upd else Yv.str now))))
  | _ => .error ()

/-- `upsert_ai_task_block` from `avocado/task_block.py`. -/
def upsertAiTaskBlock (description : PyStr) (task : List (PyStr × Yv)) : PyStr :=
  let yaml_content := pyStrip (yamlDumpBody task)
  let block := openTag ++ '\n' :: yaml_content ++ '\n' :: lit "[/AI Task]"
  match description with
  | [] => block
  | _ =>
    match findAiTaskBlock description with
    | some _ => pyStrip (subAiTaskBlocks (description.length + 1) block description)
    | none => pyStrip (pyRstrip description ++ '\n' :: '\n' :: block)

/-! ## Dict lemmas -/

theorem dictGet?_dictSet_self (d : List (PyStr × Yv)) (k : PyStr) (v : Yv) :
    dictGet? (dictSet d k v) k = some v := by
  induction d with
  | nil => simp [dictSet, dictGet?]
  | cons kv rest ih =>
    rcases kv with ⟨k0, v0⟩
    by_cases h : k0 = k
    · subst h
      simp [dictSet, dictGet?]
    · simp [dictSet, dictGet?, h, ih]

theorem dictGet?_dictSet_ne (d : List (PyStr × Yv)) (k k2 : PyStr) (v : Yv)
    (h : k2 ≠ k) : dictGet? (dictSet d k v) k2 = dictGet? d k2 := by
  induction d with
  | nil => simp [dictSet, dictGet?, Ne.symm h]
  | cons kv rest ih =>
    rcases kv with ⟨k0, v0⟩
    by_cases h0 : k0 = k
    · subst h0
      simp only [dictSet, if_pos rfl, dictGet?]
      rw [if_neg (Ne.symm h), if_neg (Ne.symm h)]
    · simp [dictSet, if_neg h0, dictGet?, ih]

/-! ## Claim C3: normalized `editable_fields` -/

/-- C3 counterexample: a parsed block whose `editable_fields` is
`["foo"]` survives normalization verbatim — the field name `foo` is not
one of the five allowed names, so the normalized value is not clamped to
a subset of them. -/
theorem C3_counterexample :
    (match normalizeTask [(lit "editable_fields", Yv.list [Yv.str (lit "foo")])] {}
        (lit "2026-01-01T00:00:00+00:00") with
     | .ok m => dictGet? m (lit "editable_fields")
     | .error _ => none) = some (Yv.list [Yv.str (lit "foo")]) ∧
    (lit "foo") ∉ ALLOWED_FIELDS := by
  exact ⟨rfl, by decide⟩

/-- C3 as amended: for every parsed mapping and defaults, a successful
normalization yields an `editable_fields` value that is a non-empty list
of non-blank (stripped) strings; names outside the allowed five may
survive (the clamp to the allowed set happens downstream in
`apply_change`, not here). -/
theorem C3_editable_fields_nonempty (parsed : List (PyStr × Yv))
    (defaults : TaskDefaultsConfig) (now : PyStr) (m : List (PyStr × Yv))
    (h : normalizeTask parsed defaults now = .ok m) :
    ∃ l, dictGet? m (lit "editable_fields") = some (Yv.list l) ∧ l ≠ [] ∧
      ∀ v ∈ l, ∃ s, v = Yv.str s ∧ s ≠ [] := by
  simp only [normalizeTask] at h
  split at h
  case _ defes heq =>
    rw [Except.ok.injEq] at h
    subst h
    rw [dictGet?_dictSet_ne _ _ _ _ (by decide),
      dictGet?_dictSet_ne _ _ _ _ (by decide),
      dictGet?_dictSet_ne _ _ _ _ (by decide),
      dictGet?_dictSet_ne _ _ _ _ (by decide),
      dictGet?_dictSet_self]
    refine ⟨_, rfl, ?_, ?_⟩
    · split
      · simp [DEFAULT_EDITABLE_FIELDS]
      · rename_i hne
        intro hnil
        rw [List.map_eq_nil_iff] at hnil
        rw [hnil] at hne
        exact hne rfl
    · intro v hv
      split at hv
      · simp only [List.mem_map] at hv
        obtain ⟨s, hs, rfl⟩ := hv
        refine ⟨s, rfl, ?_⟩
        fin_cases hs <;> decide
      · simp only [List.mem_map] at hv
        obtain ⟨s, hs, rfl⟩ := hv
        refine ⟨s, rfl, ?_⟩
        have := List.of_mem_filter hs
        simpa [List.isEmpty_iff] using this
  case _ =>
    exact absurd h (by simp)

/-- C3 witness: the amended statement at the empty parsed mapping and
default configuration. -/
theorem C3_editable_fields_nonempty_witness :
    ∃ l, dictGet? ((normalizeTask [] {} (lit "2026-01-01T00:00:00+00:00")).toOption.getD [])
        (lit "editable_fields") = some (Yv.list l) ∧ l ≠ [] ∧
      ∀ v ∈ l, ∃ s, v = Yv.str s ∧ s ≠ [] :=
  C3_editable_fields_nonempty [] {} (lit "2026-01-01T00:00:00+00:00") _ rfl

/-! ## Claim C4: totality of task-block parsing -/

/-- C4: the code is wrong and the claim (and the repository's own test
`test_parse_invalid_yaml_returns_none`) is right — on the test's own
input, whose block body is an unterminated double-quoted scalar,
`yaml.safe_load` raises a scanner error that `parse_ai_task_block` does
not catch, so parsing raises instead of returning the claimed absent. -/
theorem C4_parse_raises_on_invalid_yaml :
    parseAiTaskBlock
      (lit "Hello\n\n[AI Task]\nuser_intent: \"move around 3pm\nlocked: false\n[/AI Task]") =
      .error () ∧
    parseAiTaskBlock (lit "no block here") = .ok none ∧
    parseAiTaskBlock (lit "x\n[AI Task]\nplain scalar\n[/AI Task]") = .ok none := by
  exact ⟨rfl, rfl, rfl⟩

/-! ## Sync-engine intent extraction and the per-change gate sequence
(`avocado/sync_engine.py`) -/

/-- The falsy spellings of an intent value recognized by the fallback
path (`{"", '""', "''", "null", "None", "~"}`). -/
def INTENT_FALSY : List PyStr :=
  [[], lit "\"\"", [Char.ofNat 39, Char.ofNat 39], lit "null", lit "None", lit "~"]

/-- The fallback regex `^\s*user_intent\s*:\s*(.+)$` applied to one line,
returning the stripped capture. -/
def matchIntentLine (line : PyStr) : Option PyStr :=
  let rest := line.dropWhile isPySpace
  if (lit "user_intent").isPrefixOf rest then
    match (rest.drop (lit "user_intent").length).dropWhile isPySpace with
    | ':' :: rest3 => if rest3 = [] then none else some (pyStrip rest3)
    | _ => none
  else none

/-- The first line of the raw block matching the fallback intent regex
(`re.MULTILINE` search). -/
def findIntentValue (raw_block : PyStr) : Option PyStr :=
  (raw_block.splitOn '\n').findSome? matchIntentLine

/-- `_event_has_user_intent` from `avocado/sync_engine.py`: the parsed
block's `user_intent` when the block parses to a mapping, else the
regex fallback over the delimited block.  Propagates the `yaml.safe_load`
exception of `parse_ai_task_block`. -/
def eventHasUserIntent (e : EventRecord) : Except Unit Bool :=
  match parseAiTaskBlock e.description with
  | .error er => .error er
  | .ok (some parsed) =>
    .ok (pyTruthy (Yv.str (pyStrip (pyStr (dictGetD parsed (lit "user_intent") (Yv.str []))))))
  | .ok none =>
    match findAiTaskBlock e.description with
    | none => .ok false
    | some (_, raw_block, _) =>
      match findIntentValue raw_block with
      | none => .ok false
      | some value => .ok (if value ∈ INTENT_FALSY then false else true)

/-- `_extract_editable_fields` from `avocado/sync_engine.py`. -/
def extractEditableFields (e : EventRecord) (fallback_fields : List PyStr) :
    Except Unit (List PyStr) :=
  match parseAiTaskBlock e.description with
  | .error er => .error er
  | .ok (some parsed) =>
    match dictGet? parsed (lit "editable_fields") with
    | some (Yv.list items) =>
      let cleaned := (items.map (fun f => pyStrip (pyStr f))).filter (fun s => ¬s.isEmpty)
      if cleaned.isEmpty then
        .ok ((fallback_fields.map pyStrip).filter (fun s => ¬s.isEmpty))
      else .ok cleaned
    | _ => .ok ((fallback_fields.map pyStrip).filter (fun s => ¬s.isEmpty))
  | .ok none => .ok ((fallback_fields.map pyStrip).filter (fun s => ¬s.isEmpty))

/-- A normalized planner change as consumed by the `run_once` loop:
the two required ids plus the five editable fields. -/
structure NormChange where
  calendar_id : PyStr
  uid : PyStr
  fields : Change
deriving DecidableEq

/-- Association lookup on `(calendar_id, uid)` keys. -/
def assocGet? {β : Type} : List ((PyStr × PyStr) × β) → PyStr × PyStr → Option β
  | [], _ => none
  | (k0, v) :: rest, k => if k0 = k then some v else assocGet? rest k

/-- The target-resolution priority of the `run_once` change loop:
direct `(calendar_id, uid)` hit, then the staging-namespaced uid in the
user calendar, then a unique bare-uid match. -/
def resolveChangeTarget (user_calendar_id : PyStr)
    (mutable_events : List ((PyStr × PyStr) × EventRecord))
    (change : NormChange) : Option EventRecord :=
  match assocGet? mutable_events (change.calendar_id, change.uid) with
  | some e => some e
  | none =>
    match assocGet? mutable_events
        (user_calendar_id, stagingUid change.calendar_id change.uid) with
    | some e => some e
    | none =>
      match (mutable_events.filter (fun kv => kv.1.2 = change.uid)).map Prod.snd with
      | [e] => some e
      | _ => none

/-- The recorded disposition of one normalized change in `run_once`. -/
inductive ChangeDisposition where
  | unmatched
  | skippedNoIntent
  | outcome (o : ReconcileOutcome)
deriving DecidableEq

/-- The per-change gate sequence of `SyncEngine.run_once`
(`avocado/sync_engine.py`): resolve the target, audit `ai_change_unmatched`
and drop when unresolved, audit `ai_change_skipped_no_intent` and skip
when the event has no non-empty user intent, and only then call
`apply_change` (whose outcome `run_once` records as a conflict, a no-op,
or an applied change). -/
def processChange (user_calendar_id : PyStr)
    (mutable_events : List ((PyStr × PyStr) × EventRecord))
    (baseline_etags : List ((PyStr × PyStr) × PyStr))
    (task_defaults : TaskDefaultsConfig)
    (change : NormChange) : Except Unit ChangeDisposition :=
  match resolveChangeTarget user_calendar_id mutable_events change with
  | none => .ok .unmatched
  | some e =>
    match eventHasUserIntent e with
    | .error er => .error er
    | .ok false => .ok .skippedNoIntent
    | .ok true =>
      match extractEditableFields e task_defaults.editable_fields with
      | .error er => .error er
      | .ok editable_fields =>
        .ok (.outcome (applyChange e change.fields
          ((assocGet? baseline_etags (e.calendar_id, e.uid)).getD [])
          (some editable_fields)))

/-! ## Claim C6: gate order for locked events without intent -/

/-- C6 counterexample: a locked user-layer event with no user intent is
recorded as `ai_change_skipped_no_intent` — the intent gate of `run_once`
runs before `apply_change`'s lock gate, so `event_locked_or_mandatory` is
never reached for it. -/
theorem C6_counterexample :
    processChange (lit "user")
      [((lit "user", lit "u1"),
        { calendar_id := lit "user", uid := lit "u1", locked := true })]
      [] {} { calendar_id := lit "user", uid := lit "u1", fields := {} } =
      .ok .skippedNoIntent ∧
    (Except.ok ChangeDisposition.skippedNoIntent : Except Unit ChangeDisposition) ≠
      Except.ok (ChangeDisposition.outcome
      { applied := false
        conflicted := true
        reason := lit "event_locked_or_mandatory"
        event := { calendar_id := lit "user", uid := lit "u1", locked := true }
        blocked_fields := [] }) := by
  refine ⟨rfl, fun h => ?_⟩
  exact ChangeDisposition.noConfusion (Except.ok.inj h)

/-- C6 as amended: the no-intent skip is checked before `apply_change`
(and hence before its locked/mandatory gate): every resolved change whose
target has no non-empty `user_intent` — locked or not — is recorded as
`ai_change_skipped_no_intent`. -/
theorem C6_no_intent_skip_precedes_lock_gate (user_calendar_id : PyStr)
    (mutable_events : List ((PyStr × PyStr) × EventRecord))
    (baseline_etags : List ((PyStr × PyStr) × PyStr))
    (task_defaults : TaskDefaultsConfig) (change : NormChange) (e : EventRecord)
    (hres : resolveChangeTarget user_calendar_id mutable_events change = some e)
    (_hlock : e.locked = true ∨ e.mandatory = true)
    (hint : eventHasUserIntent e = .ok false) :
    processChange user_calendar_id mutable_events baseline_etags task_defaults change =
      .ok .skippedNoIntent := by
  simp only [processChange, hres, hint]

/-- C6 witness: the amended statement at the counterexample's concrete
locked event. -/
theorem C6_no_intent_skip_precedes_lock_gate_witness :
    processChange (lit "user")
      [((lit "user", lit "u1"),
        { calendar_id := lit "user", uid := lit "u1", locked := true })]
      [] {} { calendar_id := lit "user", uid := lit "u1", fields := {} } =
      .ok .skippedNoIntent :=
  C6_no_intent_skip_precedes_lock_gate (lit "user") _ [] {} _
    { calendar_id := lit "user", uid := lit "u1", locked := true }
    rfl (Or.inl rfl) rfl

/-! ## Claim C8 infrastructure: delimiter-scan lemmas -/

/-- No occurrence of the opening delimiter at any position of `s`. -/
def NoTag (s : PyStr) : Prop := ∀ i : Nat, ¬ openTag <+: s.drop i

theorem splitFirstSub_none {pat : PyStr} :
    ∀ {s : PyStr}, splitFirstSub pat s = none → ∀ i : Nat, ¬ pat <+: s.drop i := by
  intro s
  induction s with
  | nil =>
    intro h i hp
    rw [List.drop_nil] at hp
    rw [splitFirstSub, if_pos (List.isPrefixOf_iff_prefix.mpr hp)] at h
    exact Option.noConfusion h
  | cons c rest ih =>
    intro h i hp
    by_cases hpre : pat.isPrefixOf (c :: rest)
    · rw [splitFirstSub, if_pos hpre] at h
      exact Option.noConfusion h
    · rw [splitFirstSub, if_neg hpre] at h
      have hrest : splitFirstSub pat rest = none := by
        rcases hsr : splitFirstSub pat rest with _ | ⟨pre, post⟩
        · rfl
        · rw [hsr] at h
          exact Option.noConfusion h
      cases i with
      | zero =>
        rw [List.drop_zero] at hp
        exact hpre (List.isPrefixOf_iff_prefix.mpr hp)
      | succ j => exact ih hrest j (by simpa using hp)

theorem noTag_of_prefix {s t : PyStr} (h : t <+: s) (hs : NoTag s) : NoTag t := by
  intro i hp
  obtain ⟨u, hu⟩ := h
  by_cases hi : i ≤ t.length
  · refine hs i ?_
    rw [← hu, List.drop_append_of_le_length hi]
    exact hp.trans (List.prefix_append _ _)
  · rw [List.drop_eq_nil_of_le (by omega)] at hp
    rw [List.prefix_nil] at hp
    exact absurd hp (by decide)

theorem noTag_of_suffix {s t : PyStr} (h : t <:+ s) (hs : NoTag s) : NoTag t := by
  intro i hp
  obtain ⟨u, hu⟩ := h
  refine hs (u.length + i) ?_
  rw [← hu, ← List.drop_drop, List.drop_left]
  exact hp

theorem pyRstrip_prefix (s : PyStr) : pyRstrip s <+: s := by
  have h : (s.reverse.dropWhile isPySpace) <:+ s.reverse :=
    List.dropWhile_suffix isPySpace
  have h2 := h.reverse
  rwa [List.reverse_reverse] at h2

theorem pyLstrip_suffix (s : PyStr) : pyLstrip s <:+ s :=
  List.dropWhile_suffix isPySpace

/-- Crossing lemma: no opening-delimiter occurrence can start strictly
inside `X` in `X ++ Y` when `X` is tag-free and the head of `Y` differs
from every delimiter character from position one on. -/
theorem noTag_before_append {X Y : PyStr} (hX : NoTag X)
    (hhd : ∀ k : Nat, k < 9 → 1 ≤ k → openTag.getD k ' ' ≠ Y.headD ' ') :
    ∀ i : Nat, i < X.length → ¬ openTag <+: (X ++ Y).drop i := by
  intro i hi hp
  rw [List.drop_append_of_le_length (by omega)] at hp
  have hlen9 : openTag.length = 9 := by decide
  by_cases hsl : 9 ≤ (X.drop i).length
  · refine hX i ?_
    have htake : openTag = (X.drop i).take 9 := by
      have h1 := List.prefix_iff_eq_take.mp hp
      rw [hlen9] at h1
      rw [h1, List.take_append_of_le_length hsl]
    rw [htake]
    exact List.take_prefix _ _
  · have hslen : 1 ≤ (X.drop i).length := by
      rw [List.length_drop]
      omega
    have htake : openTag = X.drop i ++ Y.take (9 - (X.drop i).length) := by
      have h1 := List.prefix_iff_eq_take.mp hp
      rw [hlen9] at h1
      rw [h1, List.take_append_eq_append_take, List.take_of_length_le (by omega)]
    rcases hY : Y with _ | ⟨y, ys⟩
    · rw [hY, List.take_nil, List.append_nil] at htake
      have hcl := congrArg List.length htake
      rw [hlen9] at hcl
      omega
    · rcases hn : 9 - (X.drop i).length with _ | n
      · omega
      · have hval : openTag.getD (X.drop i).length ' ' = y := by
          rw [htake, hY, hn, List.getD_append_right _ _ _ _ (le_refl _), Nat.sub_self]
          rfl
        refine hhd (X.drop i).length (by omega) (by omega) ?_
        rw [hval, hY]
        rfl

theorem noTag_append {X Y : PyStr} (hX : NoTag X) (hY : NoTag Y)
    (hhd : ∀ k : Nat, k < 9 → 1 ≤ k → openTag.getD k ' ' ≠ Y.headD ' ') :
    NoTag (X ++ Y) := by
  intro i hp
  by_cases hi : i < X.length
  · exact noTag_before_append hX hhd i hi hp
  · refine hY (i - X.length) ?_
    rwa [List.drop_append_eq_append_drop, List.drop_eq_nil_of_le (by omega),
      List.nil_append] at hp

/-- The scan of `findAiTaskBlock` skips a tag-free prefix. -/
theorem findAiTaskBlock_prepend {B : PyStr} {body post : PyStr}
    (hfind : findAiTaskBlock B = some ([], body, post)) :
    ∀ X : PyStr, (∀ i : Nat, i < X.length → ¬ openTag <+: (X ++ B).drop i) →
      findAiTaskBlock (X ++ B) = some (X, body, post) := by
  intro X
  induction X with
  | nil =>
    intro _
    simpa using hfind
  | cons c X2 ih =>
    intro hscan
    have hnp : ¬ openTag.isPrefixOf (c :: (X2 ++ B)) := by
      intro hb
      exact hscan 0 (by simp) (by simpa using List.isPrefixOf_iff_prefix.mp hb)
    rw [show ((c :: X2) ++ B) = c :: (X2 ++ B) from rfl, findAiTaskBlock, if_neg hnp,
      ih (fun i hi hpre => hscan (i + 1) (by simpa using Nat.succ_lt_succ hi)
        (by simpa using hpre))]
    rfl

theorem splitFirstSub_exact {pat Y : PyStr} (hpat : pat ≠ []) :
    ∀ X : PyStr, (∀ i : Nat, i < X.length → ¬ pat <+: (X.drop i ++ pat ++ Y)) →
      splitFirstSub pat (X ++ pat ++ Y) = some (X, Y) := by
  intro X
  induction X with
  | nil =>
    intro _
    rcases hp : pat with _ | ⟨p0, ps⟩
    · exact absurd hp hpat
    · rw [← hp, List.nil_append,
        show pat ++ Y = p0 :: (ps ++ Y) from by rw [hp]; rfl]
      rw [splitFirstSub, if_pos (List.isPrefixOf_iff_prefix.mpr
        (by rw [← show pat ++ Y = p0 :: (ps ++ Y) from by rw [hp]; rfl]
            exact List.prefix_append pat Y))]
      rw [← show pat ++ Y = p0 :: (ps ++ Y) from by rw [hp]; rfl, List.drop_left]
  | cons c X2 ih =>
    intro hscan
    have hnp : ¬ pat.isPrefixOf (c :: (X2 ++ pat ++ Y)) := by
      intro hb
      exact hscan 0 (by simp)
        (by simpa using List.isPrefixOf_iff_prefix.mp hb)
    rw [show ((c :: X2) ++ pat ++ Y) = c :: (X2 ++ pat ++ Y) from rfl,
      splitFirstSub, if_neg hnp,
      ih (fun i hi hpre => hscan (i + 1) (by simpa using Nat.succ_lt_succ hi)
        (by simpa using hpre))]

/-- No closing delimiter occurs before the final one in a body whose
newline-following characters are never `[`. -/
theorem splitFirstSub_close {yaml : PyStr}
    (hnl : ∀ (i : Nat) (r : PyStr), yaml.drop i = '\n' :: r → r.headD '\n' ≠ '[') :
    splitFirstSub closeTagNl (yaml ++ closeTagNl) = some (yaml, []) := by
  have h := @splitFirstSub_exact closeTagNl [] (by decide) yaml ?_
  · rwa [List.append_nil] at h
  · intro i hi hp
    rw [List.append_nil] at hp
    rcases ht : yaml.drop i with _ | ⟨c, r⟩
    · have := congrArg List.length ht
      rw [List.length_drop] at this
      simp at this
      omega
    · rw [ht] at hp
      rw [show closeTagNl = '\n' :: lit "[/AI Task]" from rfl] at hp
      rw [List.cons_append, List.cons_prefix_cons] at hp
      obtain ⟨hc, hrest⟩ := hp
      subst hc
      have hne := hnl i r ht
      rcases hr : r with _ | ⟨r0, r2⟩
      · rw [hr, List.nil_append,
          show lit "[/AI Task]" = '[' :: lit "/AI Task]" from rfl,
          List.cons_prefix_cons] at hrest
        exact absurd hrest.1 (by decide)
      · rw [hr, List.cons_append,
          show lit "[/AI Task]" = '[' :: lit "/AI Task]" from rfl,
          List.cons_prefix_cons] at hrest
        rw [hr] at hne
        exact hne (by rw [← hrest.1]; rfl)

/-- The regex tail matches exactly the emitted body at the block. -/
theorem matchAfterOpen_block {yaml : PyStr} (hne : yaml ≠ [])
    (hhd : isPySpace (yaml.headD ' ') = false)
    (hnl : ∀ (i : Nat) (r : PyStr), yaml.drop i = '\n' :: r → r.headD '\n' ≠ '[') :
    matchAfterOpen ('\n' :: (yaml ++ closeTagNl)) = some (yaml, []) := by
  have htw : (yaml ++ closeTagNl).takeWhile isPySpace = [] := by
    rcases hy : yaml with _ | ⟨y0, yr⟩
    · exact absurd hy hne
    · rw [List.cons_append, List.takeWhile_cons_of_neg]
      rw [hy] at hhd
      simpa using hhd
  have hrun : (('\n' :: (yaml ++ closeTagNl)).takeWhile isPySpace) = ['\n'] := by
    rw [List.takeWhile_cons_of_pos (by decide), htw]
  have hsplit : splitFirstSub closeTagNl (('\n' :: (yaml ++ closeTagNl)).drop (0 + 1)) =
      some (yaml, []) := by
    rw [List.drop_succ_cons, List.drop_zero]
    exact splitFirstSub_close hnl
  simp only [matchAfterOpen, hrun, List.length_cons, List.length_nil, Nat.zero_add]
  rw [show List.range 1 = [0] from rfl, List.filter_cons]
  rw [if_pos (by
    rw [Bool.and_eq_true]
    exact ⟨by rfl, by rw [hsplit]; rfl⟩)]
  rw [List.filter_nil]
  rw [show ([0] : List Nat).max? = some 0 from rfl]
  exact hsplit

/-- `findAiTaskBlock` at an emitted block finds exactly the body. -/
theorem findAiTaskBlock_block {yaml : PyStr} (hne : yaml ≠ [])
    (hhd : isPySpace (yaml.headD ' ') = false)
    (hnl : ∀ (i : Nat) (r : PyStr), yaml.drop i = '\n' :: r → r.headD '\n' ≠ '[') :
    findAiTaskBlock (openTag ++ '\n' :: (yaml ++ closeTagNl)) = some ([], yaml, []) := by
  rw [show openTag ++ '\n' :: (yaml ++ closeTagNl) =
    '[' :: (lit "AI Task]" ++ '\n' :: (yaml ++ closeTagNl)) from rfl]
  rw [findAiTaskBlock]
  rw [if_pos (by
    rw [show ('[' :: (lit "AI Task]" ++ '\n' :: (yaml ++ closeTagNl))) =
      openTag ++ '\n' :: (yaml ++ closeTagNl) from rfl]
    exact List.isPrefixOf_iff_prefix.mpr (List.prefix_append _ _))]
  rw [show (('[' :: (lit "AI Task]" ++ '\n' :: (yaml ++ closeTagNl))).drop openTag.length) =
    '\n' :: (yaml ++ closeTagNl) from by
      rw [show ('[' :: (lit "AI Task]" ++ '\n' :: (yaml ++ closeTagNl))) =
        openTag ++ '\n' :: (yaml ++ closeTagNl) from rfl]
      exact List.drop_left _ _]
  rw [matchAfterOpen_block hne hhd hnl]

/-! ## Claim C8 infrastructure: serializable mappings -/

/-- A plain mapping key character: alphanumeric, underscore or hyphen. -/
def keyCharB (c : Char) : Bool :=
  (97 ≤ c.toNat && c.toNat ≤ 122) || (65 ≤ c.toNat && c.toNat ≤ 90) ||
    (48 ≤ c.toNat && c.toNat ≤ 57) || c.toNat = 95 || c.toNat = 45

/-- Keys that serialize to a single plain token. -/
def simpleKeyB (k : PyStr) : Bool := !k.isEmpty && k.all keyCharB

/-- String characters that survive the flow serialization unescaped: no
quotes, newlines, commas or brackets. -/
def strCharB (c : Char) : Bool :=
  !(c.toNat = 39 || c.toNat = 34 || c.toNat = 10 || c.toNat = 44 ||
    c.toNat = 91 || c.toNat = 93 || c.toNat = 123 || c.toNat = 125)

/-- Scalars that round-trip through the flow grammar. -/
def simpleScalarB : Yv → Bool
  | .null => true
  | .bool _ => true
  | .int _ => true
  | .str s => s.all strCharB
  | _ => false

/-- Task-block values that round-trip: scalars, lists of scalars, and
scalar-valued nested mappings with plain keys. -/
def simpleValB : Yv → Bool
  | .list items => items.all simpleScalarB
  | .map es => es.all (fun kv => simpleKeyB kv.1 && simpleScalarB kv.2)
  | v => simpleScalarB v

/-- A non-empty task mapping with plain keys and round-trippable values. -/
def simpleTaskDictB (m : List (PyStr × Yv)) : Bool :=
  !m.isEmpty && m.all (fun kv => simpleKeyB kv.1 && simpleValB kv.2)

theorem keyChar_ne {c : Char} (h : keyCharB c = true) :
    c ≠ '\n' ∧ c ≠ '[' ∧ c ≠ ':' ∧ c ≠ ',' ∧ isPySpace c = false := by
  refine ⟨?_, ?_, ?_, ?_, ?_⟩
  · intro h2; subst h2; exact absurd h (by decide)
  · intro h2; subst h2; exact absurd h (by decide)
  · intro h2; subst h2; exact absurd h (by decide)
  · intro h2; subst h2; exact absurd h (by decide)
  · cases hsp : isPySpace c with
    | false => rfl
    | true =>
      simp only [isPySpace, Bool.or_eq_true, decide_eq_true_eq] at hsp
      rcases hsp with ((((h2 | h2) | h2) | h2) | h2) | h2 <;>
        (subst h2; exact absurd h (by decide))

theorem strChar_ne {c : Char} (h : strCharB c = true) :
    c ≠ '\n' ∧ c ≠ Char.ofNat 39 ∧ c ≠ '"' ∧ c ≠ ',' := by
  refine ⟨?_, ?_, ?_, ?_⟩ <;> (intro h2; subst h2; exact absurd h (by decide))

theorem pyDigitChar_digit (k : Nat) :
    48 ≤ (pyDigitChar k).toNat ∧ (pyDigitChar k).toNat ≤ 57 := by
  unfold pyDigitChar
  split <;> decide

theorem digit_ne {c : Char} (h : 48 ≤ c.toNat ∧ c.toNat ≤ 57) :
    c ≠ '\n' ∧ c ≠ ',' ∧ isPySpace c = false ∧
      (48 ≤ c.toNat && c.toNat ≤ 57) = true := by
  refine ⟨?_, ?_, ?_, ?_⟩
  · intro h2; subst h2; revert h; decide
  · intro h2; subst h2; revert h; decide
  · cases hsp : isPySpace c with
    | false => rfl
    | true =>
      simp only [isPySpace, Bool.or_eq_true, decide_eq_true_eq] at hsp
      rcases hsp with ((((h2 | h2) | h2) | h2) | h2) | h2 <;>
        (subst h2; revert h; decide)
  · rw [Bool.and_eq_true, decide_eq_true_iff, decide_eq_true_iff]
    exact h

theorem digitLoop_mem : ∀ (f n : Nat) (acc : PyStr) (c : Char),
    c ∈ digitLoop f n acc → (∃ k, c = pyDigitChar k) ∨ c ∈ acc := by
  intro f
  induction f with
  | zero =>
    intro n acc c hc
    exact Or.inr hc
  | succ f2 ih =>
    intro n acc c hc
    rw [digitLoop] at hc
    split at hc
    · rcases List.mem_cons.mp hc with rfl | hc2
      · exact Or.inl ⟨n, rfl⟩
      · exact Or.inr hc2
    · rcases ih _ _ _ hc with h | h
      · exact Or.inl h
      · rcases List.mem_cons.mp h with rfl | hc2
        · exact Or.inl ⟨n % 10, rfl⟩
        · exact Or.inr hc2

theorem digitLoop_ne_nil : ∀ (f n : Nat) (acc : PyStr),
    1 ≤ f ∨ acc ≠ [] → digitLoop f n acc ≠ [] := by
  intro f
  induction f with
  | zero =>
    intro n acc h
    rcases h with h | h
    · omega
    · exact h
  | succ f2 ih =>
    intro n acc _
    rw [digitLoop]
    split
    · exact List.cons_ne_nil _ _
    · exact ih _ _ (Or.inr (List.cons_ne_nil _ _))

theorem intToStr_mem {n : Int} {c : Char} (hc : c ∈ intToStr n) :
    (48 ≤ c.toNat ∧ c.toNat ≤ 57) ∨ c = '-' := by
  have hnat : ∀ (m : Nat), c ∈ natToStr m → 48 ≤ c.toNat ∧ c.toNat ≤ 57 := by
    intro m hm
    rcases digitLoop_mem _ _ _ _ hm with ⟨k, rfl⟩ | h
    · exact pyDigitChar_digit k
    · simp at h
  rcases n with m | m
  · exact Or.inl (hnat m hc)
  · rw [intToStr] at hc
    rcases List.mem_cons.mp hc with rfl | hc2
    · exact Or.inr rfl
    · exact Or.inl (hnat _ hc2)

theorem natToStr_ne_nil (n : Nat) : natToStr n ≠ [] :=
  digitLoop_ne_nil _ _ _ (Or.inl (by omega))

theorem mem_intersperse {sep : PyStr} :
    ∀ {l : List PyStr} {x : PyStr}, x ∈ l.intersperse sep → x = sep ∨ x ∈ l := by
  intro l
  induction l with
  | nil =>
    intro x hx
    simp at hx
  | cons a t ih =>
    intro x hx
    cases t with
    | nil =>
      rw [List.intersperse_single] at hx
      exact Or.inr hx
    | cons b t2 =>
      rw [List.intersperse_cons_cons] at hx
      rcases List.mem_cons.mp hx with rfl | hx2
      · exact Or.inr (List.mem_cons_self _ _)
      · rcases List.mem_cons.mp hx2 with rfl | hx3
        · exact Or.inl rfl
        · rcases ih hx3 with h | h
          · exact Or.inl h
          · exact Or.inr (List.mem_cons_of_mem _ h)

theorem mem_intercalate {sep : PyStr} {l : List PyStr} {c : Char}
    (hc : c ∈ List.intercalate sep l) : c ∈ sep ∨ ∃ p ∈ l, c ∈ p := by
  rw [List.intercalate] at hc
  rw [List.mem_flatten] at hc
  obtain ⟨part, hpart, hcp⟩ := hc
  rcases mem_intersperse hpart with rfl | h
  · exact Or.inl hcp
  · exact Or.inr ⟨part, h, hcp⟩

/-! ## Claim C8 infrastructure: decimal readback -/

theorem pyDigitChar_toNat {k : Nat} (h : k < 10) : (pyDigitChar k).toNat = 48 + k := by
  interval_cases k <;> rfl

theorem digitLoop_append : ∀ (fuel n : Nat) (acc : PyStr),
    digitLoop fuel n acc = digitLoop fuel n [] ++ acc := by
  intro fuel
  induction fuel with
  | zero => intro n acc; rfl
  | succ f2 ih =>
    intro n acc
    by_cases h : n < 10
    · rw [digitLoop, if_pos h, digitLoop, if_pos h]
      rfl
    · rw [digitLoop, if_neg h, digitLoop, if_neg h,
        ih (n / 10) (pyDigitChar (n % 10) :: acc), ih (n / 10) [pyDigitChar (n % 10)]]
      simp

theorem read_digitLoop : ∀ (fuel : Nat), ∀ n < 10 ^ fuel, ∀ v : Nat,
    (digitLoop fuel n []).foldl (fun acc c => acc * 10 + (c.toNat - 48)) v =
      v * 10 ^ (digitLoop fuel n []).length + n := by
  intro fuel
  induction fuel with
  | zero =>
    intro n hn v
    have hn0 : n = 0 := by simpa using hn
    subst hn0
    simp [digitLoop]
  | succ f2 ih =>
    intro n hn v
    by_cases h : n < 10
    · rw [digitLoop, if_pos h]
      simp only [List.foldl_cons, List.foldl_nil, List.length_cons, List.length_nil]
      rw [pyDigitChar_toNat h]
      ring_nf
      omega
    · rw [digitLoop, if_neg h, digitLoop_append, List.foldl_append]
      have hdiv : n / 10 < 10 ^ f2 := by
        rw [Nat.div_lt_iff_lt_mul (by omega)]
        calc n < 10 ^ (f2 + 1) := hn
        _ = 10 ^ f2 * 10 := by ring
      rw [ih (n / 10) hdiv v]
      simp only [List.foldl_cons, List.foldl_nil, List.length_append, List.length_cons,
        List.length_nil]
      rw [pyDigitChar_toNat (Nat.mod_lt n (by omega))]
      rw [pow_succ]
      ring_nf
      omega

theorem natToStr_foldl (n : Nat) :
    (natToStr n).foldl (fun acc c => acc * 10 + (c.toNat - 48)) 0 = n := by
  have hlt : n < 10 ^ (n + 1) := by
    calc n < 10 ^ n := Nat.lt_pow_self (by omega) n
    _ ≤ 10 ^ (n + 1) := Nat.pow_le_pow_right (by omega) (by omega)
  have h := read_digitLoop (n + 1) n hlt 0
  rw [natToStr, h]
  simp

theorem natToStr_head (n : Nat) :
    ∃ c rest, natToStr n = c :: rest ∧ 48 ≤ c.toNat ∧ c.toNat ≤ 57 := by
  rcases h : natToStr n with _ | ⟨c, rest⟩
  · exact absurd h (natToStr_ne_nil n)
  · refine ⟨c, rest, rfl, ?_⟩
    have hc : c ∈ natToStr n := by
      rw [h]
      exact List.mem_cons_self _ _
    rw [natToStr] at hc
    rcases digitLoop_mem _ _ _ _ hc with ⟨k, rfl⟩ | h2
    · exact pyDigitChar_digit k
    · simp at h2

theorem intToStr_ne_keyword (n : Int) :
    intToStr n ≠ lit "null" ∧ intToStr n ≠ lit "true" ∧ intToStr n ≠ lit "false" := by
  rcases n with m | m
  · obtain ⟨c, rest, hshape, h1, h2⟩ := natToStr_head m
    rw [intToStr, hshape]
    refine ⟨?_, ?_, ?_⟩
    · intro he
      rw [show lit "null" = 'n' :: lit "ull" from rfl] at he
      injection he with hc hr
      subst hc
      exact absurd h2 (by decide)
    · intro he
      rw [show lit "true" = 't' :: lit "rue" from rfl] at he
      injection he with hc hr
      subst hc
      exact absurd h2 (by decide)
    · intro he
      rw [show lit "false" = 'f' :: lit "alse" from rfl] at he
      injection he with hc hr
      subst hc
      exact absurd h2 (by decide)
  · rw [intToStr]
    refine ⟨?_, ?_, ?_⟩
    · intro he
      rw [show lit "null" = 'n' :: lit "ull" from rfl] at he
      injection he with hc hr
      exact absurd hc (by decide)
    · intro he
      rw [show lit "true" = 't' :: lit "rue" from rfl] at he
      injection he with hc hr
      exact absurd hc (by decide)
    · intro he
      rw [show lit "false" = 'f' :: lit "alse" from rfl] at he
      injection he with hc hr
      exact absurd hc (by decide)

theorem isIntLit_cons_of_ne {c : Char} {rest : PyStr} (h : c ≠ '-') :
    isIntLit (c :: rest) =
      (!(c :: rest).isEmpty &&
        (c :: rest).all (fun c2 => 48 ≤ c2.toNat && c2.toNat ≤ 57)) := by
  unfold isIntLit
  split
  · rename_i ds heq
    injection heq with hc hds
    exact absurd hc h
  · rfl

theorem parseIntLit_cons_of_ne {c : Char} {rest : PyStr} (h : c ≠ '-') :
    parseIntLit (c :: rest) =
      Int.ofNat ((c :: rest).foldl (fun acc c2 => acc * 10 + (c2.toNat - 48)) 0) := by
  unfold parseIntLit
  split
  · rename_i ds heq
    injection heq with hc hds
    exact absurd hc h
  · rfl

theorem natToStr_all_digits (n : Nat) :
    (natToStr n).all (fun c => 48 ≤ c.toNat && c.toNat ≤ 57) = true := by
  rw [List.all_eq_true]
  intro c hc
  rw [natToStr] at hc
  rcases digitLoop_mem _ _ _ _ hc with ⟨k, rfl⟩ | h2
  · have h3 := pyDigitChar_digit k
    simp only [Bool.and_eq_true, decide_eq_true_eq]
    exact h3
  · simp at h2

theorem isIntLit_intToStr (n : Int) : isIntLit (intToStr n) = true := by
  rcases n with m | m
  · obtain ⟨c, rest, hshape, h1, h2⟩ := natToStr_head m
    have hne : c ≠ '-' := by
      intro he
      subst he
      exact absurd h1 (by decide)
    rw [intToStr, hshape, isIntLit_cons_of_ne hne, ← hshape]
    rw [natToStr_all_digits m]
    rw [hshape]
    rfl
  · rw [intToStr, show isIntLit ('-' :: natToStr (m + 1)) =
      (!(natToStr (m + 1)).isEmpty &&
        (natToStr (m + 1)).all (fun c2 => 48 ≤ c2.toNat && c2.toNat ≤ 57)) from rfl]
    rw [natToStr_all_digits (m + 1)]
    obtain ⟨c, rest, hshape, h1, h2⟩ := natToStr_head (m + 1)
    rw [hshape]
    rfl

theorem isIntLit_false_of_head {c : Char} {rest : PyStr} (h1 : c ≠ '-')
    (h2 : ¬(48 ≤ c.toNat ∧ c.toNat ≤ 57)) : isIntLit (c :: rest) = false := by
  rw [isIntLit_cons_of_ne h1, List.all_cons]
  have hd : (48 ≤ c.toNat && c.toNat ≤ 57) = false := by
    rw [Bool.eq_false_iff]
    intro hcontra
    rw [Bool.and_eq_true, decide_eq_true_eq, decide_eq_true_eq] at hcontra
    exact h2 hcontra
  rw [hd]
  simp

theorem parseIntLit_intToStr (n : Int) : parseIntLit (intToStr n) = n := by
  rcases n with m | m
  · obtain ⟨c, rest, hshape, h1, h2⟩ := natToStr_head m
    have hne : c ≠ '-' := by
      intro he
      subst he
      exact absurd h1 (by decide)
    rw [intToStr, hshape, parseIntLit_cons_of_ne hne, ← hshape, natToStr_foldl]
  · rw [intToStr, show parseIntLit ('-' :: natToStr (m + 1)) =
      -(Int.ofNat ((natToStr (m + 1)).foldl (fun acc c2 => acc * 10 + (c2.toNat - 48)) 0))
      from rfl]
    rw [natToStr_foldl]
    simp [Int.negSucc_eq]

/-! ## Claim C8 infrastructure: list and strip helpers -/

theorem mem_of_getLastEq : ∀ {l : PyStr} {c : Char}, l.getLast? = some c → c ∈ l := by
  intro l
  induction l with
  | nil =>
    intro c h
    exact Option.noConfusion h
  | cons a t ih =>
    intro c h
    cases t with
    | nil =>
      injection h with h2
      rw [← h2]
      exact List.mem_cons_self _ _
    | cons b t2 =>
      rw [List.getLast?_cons_cons] at h
      exact List.mem_cons_of_mem _ (ih h)

theorem exists_append_of_getLastEq : ∀ {l : PyStr} {c : Char},
    l.getLast? = some c → ∃ t, l = t ++ [c] := by
  intro l
  induction l with
  | nil =>
    intro c h
    exact Option.noConfusion h
  | cons a t ih =>
    intro c h
    cases t with
    | nil =>
      have h2 : a = c := by simpa using h
      exact ⟨[], by rw [← h2]; rfl⟩
    | cons b t2 =>
      rw [List.getLast?_cons_cons] at h
      obtain ⟨t3, ht⟩ := ih h
      exact ⟨a :: t3, by rw [ht]; rfl⟩

theorem getLastq_cons_of_ne_nil {a : Char} {t : PyStr} (h : t ≠ []) :
    (a :: t).getLast? = t.getLast? := by
  cases t with
  | nil => exact absurd rfl h
  | cons b t2 => exact List.getLast?_cons_cons

theorem getLastq_append_of_ne_nil {t : PyStr} (h : t ≠ []) :
    ∀ s : PyStr, (s ++ t).getLast? = t.getLast? := by
  intro s
  induction s with
  | nil => rfl
  | cons a s2 ih =>
    rw [List.cons_append, getLastq_cons_of_ne_nil (by
      intro hc
      exact h (List.append_eq_nil.mp hc).2)]
    exact ih

theorem headD_append_of_ne_nil {l t : PyStr} {d : Char} (h : l ≠ []) :
    (l ++ t).headD d = l.headD d := by
  cases l with
  | nil => exact absurd rfl h
  | cons a l2 => rfl

theorem pyLstrip_eq_self {s : PyStr} (h : isPySpace (s.headD ' ') = false) :
    pyLstrip s = s := by
  cases s with
  | nil => rfl
  | cons c r =>
    rw [pyLstrip, List.dropWhile_cons_of_neg]
    rw [show (c :: r).headD ' ' = c from rfl] at h
    simp [h]

theorem pyRstrip_eq_self {s : PyStr} {c : Char} (h : s.getLast? = some c)
    (hc : isPySpace c = false) : pyRstrip s = s := by
  obtain ⟨t, rfl⟩ := exists_append_of_getLastEq h
  rw [pyRstrip, show (t ++ [c]).reverse = c :: t.reverse from by simp,
    List.dropWhile_cons_of_neg (by simp [hc])]
  simp

theorem pyStrip_eq_self {s : PyStr} {c : Char} (hhd : isPySpace (s.headD ' ') = false)
    (hlast : s.getLast? = some c) (hc : isPySpace c = false) : pyStrip s = s := by
  rw [pyStrip, pyLstrip_eq_self hhd, pyRstrip_eq_self hlast hc]

/-! ## Claim C8 infrastructure: scalar serialization facts -/

theorem scalar_dump_fuel (f g : Nat) {v : Yv} (hv : simpleScalarB v = true) :
    yamlFlowDump (f + 1) v = yamlFlowDump (g + 1) v := by
  rcases v with _ | b | n | s | items | es
  · rfl
  · rcases b <;> rfl
  · rfl
  · rfl
  · exact Bool.noConfusion hv
  · exact Bool.noConfusion hv

theorem scalar_dump_mem (f : Nat) {v : Yv} (hv : simpleScalarB v = true) {c : Char}
    (hc : c ∈ yamlFlowDump (f + 1) v) : c ≠ '\n' ∧ c ≠ ',' := by
  rcases v with _ | b | n | s | items | es
  · rw [show yamlFlowDump (f + 1) Yv.null = ['n', 'u', 'l', 'l'] from rfl] at hc
    simp at hc
    rcases hc with rfl | rfl | rfl | rfl <;> exact ⟨by decide, by decide⟩
  · rcases b with _ | _
    · rw [show yamlFlowDump (f + 1) (Yv.bool false) = ['f', 'a', 'l', 's', 'e'] from rfl] at hc
      simp at hc
      rcases hc with rfl | rfl | rfl | rfl | rfl <;> exact ⟨by decide, by decide⟩
    · rw [show yamlFlowDump (f + 1) (Yv.bool true) = ['t', 'r', 'u', 'e'] from rfl] at hc
      simp at hc
      rcases hc with rfl | rfl | rfl | rfl <;> exact ⟨by decide, by decide⟩
  · rw [show yamlFlowDump (f + 1) (Yv.int n) = intToStr n from rfl] at hc
    rcases intToStr_mem hc with hdig | rfl
    · have h2 := digit_ne hdig
      exact ⟨h2.1, h2.2.1⟩
    · exact ⟨by decide, by decide⟩
  · rw [show yamlFlowDump (f + 1) (Yv.str s) = Char.ofNat 39 :: s ++ [Char.ofNat 39]
      from rfl] at hc
    rcases List.mem_cons.mp hc with rfl | hc2
    · exact ⟨by decide, by decide⟩
    · rcases List.mem_append.mp hc2 with hc3 | hc3
      · rw [simpleScalarB, List.all_eq_true] at hv
        have h2 := strChar_ne (hv c hc3)
        exact ⟨h2.1, h2.2.2.2⟩
      · simp at hc3
        subst hc3
        exact ⟨by decide, by decide⟩
  · exact Bool.noConfusion hv
  · exact Bool.noConfusion hv

theorem scalar_dump_ne_nil (f : Nat) {v : Yv} (hv : simpleScalarB v = true) :
    yamlFlowDump (f + 1) v ≠ [] := by
  rcases v with _ | b | n | s | items | es
  · intro h
    exact List.noConfusion (show (['n', 'u', 'l', 'l'] : PyStr) = [] from h)
  · rcases b with _ | _
    · intro h
      exact List.noConfusion (show (['f', 'a', 'l', 's', 'e'] : PyStr) = [] from h)
    · intro h
      exact List.noConfusion (show (['t', 'r', 'u', 'e'] : PyStr) = [] from h)
  · rcases n with m | m
    · exact natToStr_ne_nil m
    · exact List.cons_ne_nil _ _
  · exact List.cons_ne_nil _ _
  · exact Bool.noConfusion hv
  · exact Bool.noConfusion hv

theorem scalar_dump_getLast (f : Nat) {v : Yv} (hv : simpleScalarB v = true) :
    ∃ c, (yamlFlowDump (f + 1) v).getLast? = some c ∧ isPySpace c = false := by
  rcases v with _ | b | n | s | items | es
  · exact ⟨'l', rfl, by decide⟩
  · rcases b with _ | _
    · exact ⟨'e', rfl, by decide⟩
    · exact ⟨'e', rfl, by decide⟩
  · have hgen : ∀ m : Nat, ∃ c, (natToStr m).getLast? = some c ∧ isPySpace c = false := by
      intro m
      rcases hL : (natToStr m).getLast? with _ | c
      · rw [List.getLast?_eq_none_iff] at hL
        exact absurd hL (natToStr_ne_nil m)
      · have hcm : c ∈ natToStr m := mem_of_getLastEq hL
        rw [natToStr] at hcm
        rcases digitLoop_mem _ _ _ _ hcm with ⟨k, rfl⟩ | h2
        · exact ⟨pyDigitChar k, rfl, (digit_ne (pyDigitChar_digit k)).2.2.1⟩
        · simp at h2
    rcases n with m | m
    · exact hgen m
    · obtain ⟨c, hL, hsp⟩ := hgen (m + 1)
      exact ⟨c, by
        rw [show yamlFlowDump (f + 1) (Yv.int (Int.negSucc m)) = '-' :: natToStr (m + 1)
          from rfl]
        rw [getLastq_cons_of_ne_nil (natToStr_ne_nil (m + 1))]
        exact hL, hsp⟩
  · refine ⟨Char.ofNat 39, ?_, by decide⟩
    rw [show yamlFlowDump (f + 1) (Yv.str s) = Char.ofNat 39 :: (s ++ [Char.ofNat 39])
      from rfl]
    rw [getLastq_cons_of_ne_nil (by
      intro hc
      exact List.noConfusion (List.append_eq_nil.mp hc).2)]
    exact List.getLast?_concat _
  · exact Bool.noConfusion hv
  · exact Bool.noConfusion hv

/-! ## Claim C8 infrastructure: scalar parse roundtrip -/

theorem parseFlow_quoted (g : Nat) {body : PyStr} (hb : Char.ofNat 39 ∉ body) :
    parseFlow (g + 1) (Char.ofNat 39 :: (body ++ [Char.ofNat 39])) = .ok (.str body) := by
  have h1 : Char.ofNat 39 :: (body ++ [Char.ofNat 39]) ≠ lit "null" := by
    intro he
    rw [show lit "null" = 'n' :: lit "ull" from rfl] at he
    injection he with hc hr
    exact absurd hc (by decide)
  have h2 : Char.ofNat 39 :: (body ++ [Char.ofNat 39]) ≠ lit "true" := by
    intro he
    rw [show lit "true" = 't' :: lit "rue" from rfl] at he
    injection he with hc hr
    exact absurd hc (by decide)
  have h3 : Char.ofNat 39 :: (body ++ [Char.ofNat 39]) ≠ lit "false" := by
    intro he
    rw [show lit "false" = 'f' :: lit "alse" from rfl] at he
    injection he with hc hr
    exact absurd hc (by decide)
  have h4 : isIntLit (Char.ofNat 39 :: (body ++ [Char.ofNat 39])) = false :=
    isIntLit_false_of_head (by decide) (by decide)
  rw [parseFlow, if_neg h1, if_neg h2, if_neg h3, if_neg (by simp [h4])]
  rw [if_pos (Or.inl rfl)]
  rw [if_pos (by
    refine ⟨List.getLast?_concat _, ?_⟩
    rw [List.dropLast_concat]
    exact hb)]
  rw [List.dropLast_concat]

theorem parseFlow_scalar (g f : Nat) {v : Yv} (hv : simpleScalarB v = true) :
    parseFlow (g + 1) (yamlFlowDump (f + 1) v) = .ok v := by
  rcases v with _ | b | n | s | items | es
  · rw [show yamlFlowDump (f + 1) Yv.null = 'n' :: lit "ull" from rfl, parseFlow,
      if_pos (show ('n' :: lit "ull" : PyStr) = lit "null" from rfl)]
  · rcases b with _ | _
    · rw [show yamlFlowDump (f + 1) (Yv.bool false) = 'f' :: lit "alse" from rfl, parseFlow,
        if_neg (by decide), if_neg (by decide),
        if_pos (show ('f' :: lit "alse" : PyStr) = lit "false" from rfl)]
    · rw [show yamlFlowDump (f + 1) (Yv.bool true) = 't' :: lit "rue" from rfl, parseFlow,
        if_neg (by decide),
        if_pos (show ('t' :: lit "rue" : PyStr) = lit "true" from rfl)]
  · obtain ⟨hk1, hk2, hk3⟩ := intToStr_ne_keyword n
    have hInt := isIntLit_intToStr n
    have hP := parseIntLit_intToStr n
    rcases hsh : intToStr n with _ | ⟨c, rest⟩
    · exfalso
      rcases n with m | m
      · exact natToStr_ne_nil m hsh
      · rw [intToStr] at hsh
        exact List.noConfusion hsh
    · rw [hsh] at hk1 hk2 hk3 hInt hP
      rw [show yamlFlowDump (f + 1) (Yv.int n) = intToStr n from rfl, hsh, parseFlow,
        if_neg hk1, if_neg hk2, if_neg hk3, if_pos hInt, hP]
  · have hb : Char.ofNat 39 ∉ s := by
      intro hmem
      rw [simpleScalarB, List.all_eq_true] at hv
      have h2 := hv _ hmem
      exact absurd h2 (by decide)
    rw [show yamlFlowDump (f + 1) (Yv.str s) = Char.ofNat 39 :: (s ++ [Char.ofNat 39])
      from rfl]
    exact parseFlow_quoted g hb
  · exact Bool.noConfusion hv
  · exact Bool.noConfusion hv

/-! ## Claim C8 infrastructure: separator splitting -/

theorem intercalate_single (sep p : PyStr) : List.intercalate sep [p] = p := by
  simp [List.intercalate]

theorem intercalate_cons2 (sep a b : PyStr) (l : List PyStr) :
    List.intercalate sep (a :: b :: l) = a ++ (sep ++ List.intercalate sep (b :: l)) := by
  rw [List.intercalate, List.intercalate, List.intersperse_cons_cons, List.flatten_cons,
    List.flatten_cons]

theorem intercalate_ne_nil {sep p : PyStr} (hp : p ≠ []) (ps : List PyStr) :
    List.intercalate sep (p :: ps) ≠ [] := by
  cases ps with
  | nil =>
    rw [intercalate_single]
    exact hp
  | cons b l =>
    rw [intercalate_cons2]
    intro hc
    exact hp (List.append_eq_nil.mp hc).1

theorem intercalate_headD {sep p : PyStr} {d : Char} (hp : p ≠ []) (ps : List PyStr) :
    (List.intercalate sep (p :: ps)).headD d = p.headD d := by
  cases ps with
  | nil => rw [intercalate_single]
  | cons b l =>
    rw [intercalate_cons2]
    exact headD_append_of_ne_nil hp

theorem splitCommaSep_nocomma : ∀ (X : PyStr), ',' ∉ X → splitCommaSep X = [X] := by
  intro X
  induction X with
  | nil => intro h; rfl
  | cons c rest ih =>
    intro h
    have hc : c ≠ ',' := by
      intro he
      exact h (by rw [he]; exact List.mem_cons_self _ _)
    have hrest : ',' ∉ rest := fun hm => h (List.mem_cons_of_mem _ hm)
    unfold splitCommaSep
    split
    · rename_i heq
      exact List.noConfusion heq
    · first
      | exact absurd rfl hc
      | (rename_i r2 heq
         injection heq with hc2 hr2
         exact absurd hc2 hc)
    · rename_i hne heq
      injection heq with hc2 hr2
      subst hc2
      subst hr2
      rw [ih hrest]

theorem splitCommaSep_append : ∀ (X : PyStr) (R : PyStr), ',' ∉ X →
    splitCommaSep (X ++ ',' :: ' ' :: R) = X :: splitCommaSep R := by
  intro X
  induction X with
  | nil => intro R h; rfl
  | cons c X2 ih =>
    intro R h
    have hc : c ≠ ',' := by
      intro he
      exact h (by rw [he]; exact List.mem_cons_self _ _)
    have hX2 : ',' ∉ X2 := fun hm => h (List.mem_cons_of_mem _ hm)
    rw [List.cons_append]
    rw [splitCommaSep.eq_def]
    split
    · rename_i heq
      exact List.noConfusion heq
    · first
      | exact absurd rfl hc
      | (rename_i r2 heq
         injection heq with hc2 hr2
         exact absurd hc2 hc)
    · rename_i hne heq
      injection heq with hc2 hr2
      subst hc2
      rw [← hr2, ih R hX2]

theorem splitCommaSep_intercalate : ∀ (parts : List PyStr), parts ≠ [] →
    (∀ p ∈ parts, ',' ∉ p) →
    splitCommaSep (List.intercalate (lit ", ") parts) = parts := by
  intro parts
  induction parts with
  | nil => intro h; exact absurd rfl h
  | cons p ps ih =>
    intro _ hno
    cases ps with
    | nil =>
      rw [intercalate_single]
      exact splitCommaSep_nocomma p (hno p (List.mem_cons_self _ _))
    | cons b l =>
      rw [intercalate_cons2,
        show lit ", " ++ List.intercalate (lit ", ") (b :: l) =
          ',' :: ' ' :: List.intercalate (lit ", ") (b :: l) from rfl,
        splitCommaSep_append _ _ (hno p (List.mem_cons_self _ _)),
        ih (List.cons_ne_nil _ _) (fun q hq => hno q (List.mem_cons_of_mem _ hq))]

theorem splitFirstColonSp_append : ∀ (k : PyStr) (d : PyStr), ':' ∉ k →
    splitFirstColonSp (k ++ ':' :: ' ' :: d) = some (k, d) := by
  intro k
  induction k with
  | nil => intro d h; rfl
  | cons c k2 ih =>
    intro d h
    have hc : c ≠ ':' := by
      intro he
      exact h (by rw [he]; exact List.mem_cons_self _ _)
    have hk2 : ':' ∉ k2 := fun hm => h (List.mem_cons_of_mem _ hm)
    rw [List.cons_append]
    unfold splitFirstColonSp
    split
    · rename_i heq
      exact List.noConfusion heq
    · first
      | exact absurd rfl hc
      | (rename_i r2 heq
         injection heq with hc2 hr2
         exact absurd hc2 hc)
    · rename_i hne heq
      injection heq with hc2 hr2
      subst hc2
      rw [← hr2, ih d hk2]
      rfl

/-! ## Claim C8 infrastructure: container roundtrip -/

theorem cons_ne_null {c : Char} {X : PyStr} (h : c ≠ 'n') : c :: X ≠ lit "null" := by
  intro he
  rw [show lit "null" = 'n' :: lit "ull" from rfl] at he
  injection he with h1 h2
  exact absurd h1 h

theorem cons_ne_true {c : Char} {X : PyStr} (h : c ≠ 't') : c :: X ≠ lit "true" := by
  intro he
  rw [show lit "true" = 't' :: lit "rue" from rfl] at he
  injection he with h1 h2
  exact absurd h1 h

theorem cons_ne_false {c : Char} {X : PyStr} (h : c ≠ 'f') : c :: X ≠ lit "false" := by
  intro he
  rw [show lit "false" = 'f' :: lit "alse" from rfl] at he
  injection he with h1 h2
  exact absurd h1 h

theorem mapM_scalar (g f : Nat) : ∀ (items : List Yv), items.all simpleScalarB = true →
    (items.map (yamlFlowDump (f + 1))).mapM (parseFlow (g + 1)) = Except.ok items := by
  intro items
  induction items with
  | nil => intro h; rfl
  | cons a t ih =>
    intro h
    rw [List.all_cons, Bool.and_eq_true] at h
    rw [List.map_cons, List.mapM_cons, parseFlow_scalar g f h.1, ih h.2]
    rfl

theorem mapM_entries (g f : Nat) : ∀ (es : List (PyStr × Yv)),
    es.all (fun kv => simpleKeyB kv.1 && simpleScalarB kv.2) = true →
    ((es.map (fun kv => kv.1 ++ lit ": " ++ yamlFlowDump (f + 1) kv.2)).mapM (fun pair =>
        match splitFirstColonSp pair with
        | none => Except.error ()
        | some (k, vtext) =>
          if k = [] then Except.error ()
          else (parseFlow (g + 1) vtext).map (fun v => (k, v)))) = Except.ok es := by
  intro es
  induction es with
  | nil => intro h; rfl
  | cons kv t ih =>
    intro h
    rcases kv with ⟨k, v⟩
    simp only [List.all_cons, Bool.and_eq_true] at h
    obtain ⟨⟨hk, hs⟩, ht⟩ := h
    rw [List.map_cons, List.mapM_cons]
    have hksplit : splitFirstColonSp (k ++ lit ": " ++ yamlFlowDump (f + 1) v) =
        some (k, yamlFlowDump (f + 1) v) := by
      rw [List.append_assoc, show lit ": " ++ yamlFlowDump (f + 1) v =
        ':' :: ' ' :: yamlFlowDump (f + 1) v from rfl]
      refine splitFirstColonSp_append k _ ?_
      intro hmem
      rw [simpleKeyB, Bool.and_eq_true, List.all_eq_true] at hk
      have h2 := hk.2 _ hmem
      exact absurd h2 (by decide)
    have hkne : k ≠ [] := by
      intro he
      rw [simpleKeyB, Bool.and_eq_true] at hk
      rw [he] at hk
      exact Bool.noConfusion hk.1
    simp only [hksplit]
    rw [if_neg hkne, parseFlow_scalar g f hs, ih ht]
    rfl

theorem val_roundtrip (g f : Nat) {v : Yv} (hv : simpleValB v = true) :
    parseFlow (g + 2) (yamlFlowDump (f + 2) v) = Except.ok v := by
  rcases v with _ | b | n | s | items | es
  · exact parseFlow_scalar (g + 1) (f + 1) hv
  · exact parseFlow_scalar (g + 1) (f + 1) hv
  · exact parseFlow_scalar (g + 1) (f + 1) hv
  · exact parseFlow_scalar (g + 1) (f + 1) hv
  · rcases items with _ | ⟨a, t⟩
    · rfl
    · have hall : (a :: t).all simpleScalarB = true := hv
      have hpn : ∀ p ∈ (a :: t).map (yamlFlowDump (f + 1)), ',' ∉ p := by
        intro p hp hmem
        rcases List.mem_map.mp hp with ⟨x, hx, rfl⟩
        rw [List.all_eq_true] at hall
        exact (scalar_dump_mem f (hall x hx) hmem).2 rfl
      have hfirst : yamlFlowDump (f + 1) a ≠ [] := by
        rw [List.all_eq_true] at hall
        exact scalar_dump_ne_nil f (hall a (List.mem_cons_self _ _))
      have hbody_ne :
          List.intercalate (lit ", ") ((a :: t).map (yamlFlowDump (f + 1))) ≠ [] := by
        rw [List.map_cons]
        exact intercalate_ne_nil hfirst _
      rw [show yamlFlowDump (f + 2) (Yv.list (a :: t)) =
        '[' :: (List.intercalate (lit ", ") ((a :: t).map (yamlFlowDump (f + 1))) ++ [']'])
        from rfl]
      rw [parseFlow]
      rw [if_neg (cons_ne_null (by decide)), if_neg (cons_ne_true (by decide)),
        if_neg (cons_ne_false (by decide)),
        if_neg (by simp [isIntLit_false_of_head (show ('[' : Char) ≠ '-' by decide)
          (by decide)]),
        if_neg (by decide), if_pos rfl, if_pos (List.getLast?_concat _)]
      rw [List.dropLast_concat]
      rw [if_neg hbody_ne]
      rw [splitCommaSep_intercalate _ (by rw [List.map_cons]; exact List.cons_ne_nil _ _) hpn]
      rw [mapM_scalar g f (a :: t) hall]
      rfl
  · rcases es with _ | ⟨kv, t⟩
    · rfl
    · have hall : (kv :: t).all (fun kv2 => simpleKeyB kv2.1 && simpleScalarB kv2.2)
          = true := hv
      have hpn : ∀ p ∈ (kv :: t).map
          (fun kv2 => kv2.1 ++ lit ": " ++ yamlFlowDump (f + 1) kv2.2), ',' ∉ p := by
        intro p hp hmem
        rcases List.mem_map.mp hp with ⟨x, hx, rfl⟩
        rw [List.all_eq_true] at hall
        have hx2 := hall x hx
        rw [Bool.and_eq_true] at hx2
        rcases List.mem_append.mp hmem with hm1 | hm1
        · rcases List.mem_append.mp hm1 with hm2 | hm2
          · rw [simpleKeyB, Bool.and_eq_true, List.all_eq_true] at hx2
            exact (keyChar_ne (hx2.1.2 _ hm2)).2.2.2.1 rfl
          · rw [show lit ": " = [':', ' '] from rfl] at hm2
            simp at hm2
        · exact (scalar_dump_mem f hx2.2 hm1).2 rfl
      have hfirst : kv.1 ++ lit ": " ++ yamlFlowDump (f + 1) kv.2 ≠ [] := by
        intro he
        rw [List.all_eq_true] at hall
        have hx2 := hall kv (List.mem_cons_self _ _)
        rw [Bool.and_eq_true] at hx2
        exact scalar_dump_ne_nil f hx2.2 (List.append_eq_nil.mp he).2
      have hbody_ne : List.intercalate (lit ", ") ((kv :: t).map
          (fun kv2 => kv2.1 ++ lit ": " ++ yamlFlowDump (f + 1) kv2.2)) ≠ [] := by
        rw [List.map_cons]
        exact intercalate_ne_nil hfirst _
      rw [show yamlFlowDump (f + 2) (Yv.map (kv :: t)) =
        Char.ofNat 123 :: (List.intercalate (lit ", ") ((kv :: t).map
          (fun kv2 => kv2.1 ++ lit ": " ++ yamlFlowDump (f + 1) kv2.2)) ++ [Char.ofNat 125])
        from rfl]
      rw [parseFlow]
      rw [if_neg (cons_ne_null (by decide)), if_neg (cons_ne_true (by decide)),
        if_neg (cons_ne_false (by decide)),
        if_neg (by simp [isIntLit_false_of_head (show Char.ofNat 123 ≠ '-' by decide)
          (by decide)]),
        if_neg (by decide), if_neg (by decide), if_pos rfl,
        if_pos (List.getLast?_concat _)]
      rw [List.dropLast_concat]
      rw [if_neg hbody_ne]
      rw [splitCommaSep_intercalate _ (by rw [List.map_cons]; exact List.cons_ne_nil _ _) hpn]
      exact Eq.trans (congrArg (Except.map Yv.map) (mapM_entries g f (kv :: t) hall)) rfl

/-! ## Claim C8 infrastructure: body line facts -/

theorem val_dump_no_nl (f : Nat) {v : Yv} (hv : simpleValB v = true) {c : Char}
    (hc : c ∈ yamlFlowDump (f + 2) v) : c ≠ '\n' := by
  rcases v with _ | b | n | s | items | es
  · exact (@scalar_dump_mem (f + 1) Yv.null hv c hc).1
  · exact (@scalar_dump_mem (f + 1) (Yv.bool b) hv c hc).1
  · exact (@scalar_dump_mem (f + 1) (Yv.int n) hv c hc).1
  · exact (@scalar_dump_mem (f + 1) (Yv.str s) hv c hc).1
  · rw [show yamlFlowDump (f + 2) (Yv.list items) =
      '[' :: (List.intercalate (lit ", ") (items.map (yamlFlowDump (f + 1))) ++ [']'])
      from rfl] at hc
    rcases List.mem_cons.mp hc with rfl | hc2
    · decide
    · rcases List.mem_append.mp hc2 with hc3 | hc3
      · rcases mem_intercalate hc3 with hsep | ⟨p, hp, hcp⟩
        · rw [show lit ", " = [',', ' '] from rfl] at hsep
          simp at hsep
          rcases hsep with rfl | rfl <;> decide
        · rcases List.mem_map.mp hp with ⟨x, hx, rfl⟩
          rw [show simpleValB (Yv.list items) = items.all simpleScalarB from rfl,
            List.all_eq_true] at hv
          exact (scalar_dump_mem f (hv x hx) hcp).1
      · simp at hc3
        subst hc3
        decide
  · rw [show yamlFlowDump (f + 2) (Yv.map es) =
      Char.ofNat 123 :: (List.intercalate (lit ", ") (es.map
        (fun kv => kv.1 ++ lit ": " ++ yamlFlowDump (f + 1) kv.2)) ++ [Char.ofNat 125])
      from rfl] at hc
    rcases List.mem_cons.mp hc with rfl | hc2
    · decide
    · rcases List.mem_append.mp hc2 with hc3 | hc3
      · rcases mem_intercalate hc3 with hsep | ⟨p, hp, hcp⟩
        · rw [show lit ", " = [',', ' '] from rfl] at hsep
          simp at hsep
          rcases hsep with rfl | rfl <;> decide
        · rcases List.mem_map.mp hp with ⟨x, hx, rfl⟩
          rw [show simpleValB (Yv.map es) =
            es.all (fun kv => simpleKeyB kv.1 && simpleScalarB kv.2) from rfl,
            List.all_eq_true] at hv
          have hx2 := hv x hx
          rw [Bool.and_eq_true] at hx2
          rcases List.mem_append.mp hcp with hm1 | hm1
          · rcases List.mem_append.mp hm1 with hm2 | hm2
            · rw [simpleKeyB, Bool.and_eq_true, List.all_eq_true] at hx2
              exact (keyChar_ne (hx2.1.2 _ hm2)).1
            · rw [show lit ": " = [':', ' '] from rfl] at hm2
              simp at hm2
              rcases hm2 with rfl | rfl <;> decide
          · exact (scalar_dump_mem f hx2.2 hm1).1
      · simp at hc3
        subst hc3
        decide

theorem val_dump_ne_nil (f : Nat) {v : Yv} (hv : simpleValB v = true) :
    yamlFlowDump (f + 2) v ≠ [] := by
  rcases v with _ | b | n | s | items | es
  · exact @scalar_dump_ne_nil (f + 1) Yv.null hv
  · exact @scalar_dump_ne_nil (f + 1) (Yv.bool b) hv
  · exact @scalar_dump_ne_nil (f + 1) (Yv.int n) hv
  · exact @scalar_dump_ne_nil (f + 1) (Yv.str s) hv
  · exact fun h => List.noConfusion (show ('[' ::
      (List.intercalate (lit ", ") (items.map (yamlFlowDump (f + 1))) ++ [']']) : PyStr)
      = [] from h)
  · exact fun h => List.noConfusion (show (Char.ofNat 123 ::
      (List.intercalate (lit ", ") (es.map
        (fun kv => kv.1 ++ lit ": " ++ yamlFlowDump (f + 1) kv.2)) ++ [Char.ofNat 125])
      : PyStr) = [] from h)

theorem val_dump_getLast (f : Nat) {v : Yv} (hv : simpleValB v = true) :
    ∃ c, (yamlFlowDump (f + 2) v).getLast? = some c ∧ isPySpace c = false := by
  rcases v with _ | b | n | s | items | es
  · exact @scalar_dump_getLast (f + 1) Yv.null hv
  · exact @scalar_dump_getLast (f + 1) (Yv.bool b) hv
  · exact @scalar_dump_getLast (f + 1) (Yv.int n) hv
  · exact @scalar_dump_getLast (f + 1) (Yv.str s) hv
  · refine ⟨']', ?_, by decide⟩
    rw [show yamlFlowDump (f + 2) (Yv.list items) =
      '[' :: (List.intercalate (lit ", ") (items.map (yamlFlowDump (f + 1))) ++ [']'])
      from rfl]
    rw [getLastq_cons_of_ne_nil (by
      intro hc
      exact List.noConfusion (List.append_eq_nil.mp hc).2)]
    exact List.getLast?_concat _
  · refine ⟨Char.ofNat 125, ?_, by decide⟩
    rw [show yamlFlowDump (f + 2) (Yv.map es) =
      Char.ofNat 123 :: (List.intercalate (lit ", ") (es.map
        (fun kv => kv.1 ++ lit ": " ++ yamlFlowDump (f + 1) kv.2)) ++ [Char.ofNat 125])
      from rfl]
    rw [getLastq_cons_of_ne_nil (by
      intro hc
      exact List.noConfusion (List.append_eq_nil.mp hc).2)]
    exact List.getLast?_concat _

theorem line_split {k : PyStr} (hk : simpleKeyB k = true) (d : PyStr) :
    splitFirstColonSp (k ++ lit ": " ++ d) = some (k, d) := by
  rw [List.append_assoc, show lit ": " ++ d = ':' :: ' ' :: d from rfl]
  refine splitFirstColonSp_append k _ ?_
  intro hmem
  rw [simpleKeyB, Bool.and_eq_true, List.all_eq_true] at hk
  have h2 := hk.2 _ hmem
  exact absurd h2 (by decide)

theorem simpleKey_ne_nil {k : PyStr} (hk : simpleKeyB k = true) : k ≠ [] := by
  intro he
  rw [simpleKeyB, Bool.and_eq_true] at hk
  rw [he] at hk
  exact Bool.noConfusion hk.1

theorem line_ne_nil {k : PyStr} (hk : simpleKeyB k = true) (d : PyStr) :
    k ++ lit ": " ++ d ≠ [] := by
  intro he
  exact simpleKey_ne_nil hk (List.append_eq_nil.mp (List.append_eq_nil.mp he).1).1

theorem line_no_nl {k : PyStr} {v : Yv} (hk : simpleKeyB k = true)
    (hv : simpleValB v = true) : '\n' ∉ k ++ lit ": " ++ yamlFlowDump 3 v := by
  intro hmem
  rcases List.mem_append.mp hmem with hm1 | hm1
  · rcases List.mem_append.mp hm1 with hm2 | hm2
    · rw [simpleKeyB, Bool.and_eq_true, List.all_eq_true] at hk
      exact (keyChar_ne (hk.2 _ hm2)).1 rfl
    · rw [show lit ": " = [':', ' '] from rfl] at hm2
      simp at hm2
  · exact val_dump_no_nl 1 hv hm1 rfl

theorem line_headD {k : PyStr} (hk : simpleKeyB k = true) (d : PyStr) :
    keyCharB ((k ++ lit ": " ++ d).headD ' ') = true := by
  rw [headD_append_of_ne_nil (by
    intro he
    exact simpleKey_ne_nil hk (List.append_eq_nil.mp he).1)]
  rw [headD_append_of_ne_nil (simpleKey_ne_nil hk)]
  rcases hkk : k with _ | ⟨c, k2⟩
  · exact absurd hkk (simpleKey_ne_nil hk)
  · rw [simpleKeyB, Bool.and_eq_true, List.all_eq_true] at hk
    exact hk.2 c (by rw [hkk]; exact List.mem_cons_self _ _)

theorem line_getLast {k : PyStr} {v : Yv} (hv : simpleValB v = true) :
    ∃ c, (k ++ lit ": " ++ yamlFlowDump 3 v).getLast? = some c ∧ isPySpace c = false := by
  obtain ⟨c, hc, hsp⟩ := val_dump_getLast 1 hv
  exact ⟨c, by rw [getLastq_append_of_ne_nil (val_dump_ne_nil 1 hv)]; exact hc, hsp⟩

theorem intercalate_nl_after : ∀ (lines : List PyStr),
    (∀ l ∈ lines, l ≠ [] ∧ '\n' ∉ l ∧ keyCharB (l.headD ' ') = true) →
    ∀ (i : Nat) (r : PyStr), (List.intercalate ['\n'] lines).drop i = '\n' :: r →
      keyCharB (r.headD ' ') = true := by
  intro lines
  induction lines with
  | nil =>
    intro h i r hd
    rw [show List.intercalate ['\n'] ([] : List PyStr) = [] from rfl, List.drop_nil] at hd
    exact List.noConfusion hd
  | cons l ls ih =>
    intro h i r hd
    cases ls with
    | nil =>
      rw [intercalate_single] at hd
      have hmem : '\n' ∈ l := List.mem_of_mem_drop (by
        rw [hd]
        exact List.mem_cons_self _ _)
      exact absurd hmem (h l (List.mem_cons_self _ _)).2.1
    | cons l2 ls2 =>
      rw [intercalate_cons2] at hd
      by_cases hi : i < l.length
      · rw [List.drop_append_of_le_length (le_of_lt hi)] at hd
        rcases hdl : l.drop i with _ | ⟨x, xs⟩
        · have hlen := congrArg List.length hdl
          rw [List.length_drop] at hlen
          simp at hlen
          omega
        · rw [hdl, List.cons_append] at hd
          injection hd with h1 h2
          have hxmem : x ∈ l := List.mem_of_mem_drop (by
            rw [hdl]
            exact List.mem_cons_self _ _)
          rw [h1] at hxmem
          exact absurd hxmem (h l (List.mem_cons_self _ _)).2.1
      · rw [List.drop_append_eq_append_drop, List.drop_eq_nil_of_le (by omega),
          List.nil_append] at hd
        rcases hj : i - l.length with _ | j
        · rw [hj, List.drop_zero,
            show (['\n'] ++ List.intercalate ['\n'] (l2 :: ls2) : PyStr) =
              '\n' :: List.intercalate ['\n'] (l2 :: ls2) from rfl] at hd
          injection hd with h1 h2
          rw [← h2]
          rw [intercalate_headD ((h l2 (by simp)).1) ls2]
          exact (h l2 (by simp)).2.2
        · rw [hj,
            show (['\n'] ++ List.intercalate ['\n'] (l2 :: ls2) : PyStr) =
              '\n' :: List.intercalate ['\n'] (l2 :: ls2) from rfl,
            List.drop_succ_cons] at hd
          exact ih (fun q hq => h q (List.mem_cons_of_mem _ hq)) j r hd

theorem intercalate_getLast : ∀ (lines : List PyStr), lines ≠ [] →
    (∀ l ∈ lines, l ≠ []) →
    ∃ l ∈ lines, (List.intercalate ['\n'] lines).getLast? = l.getLast? := by
  intro lines
  induction lines with
  | nil =>
    intro h
    exact absurd rfl h
  | cons l ls ih =>
    intro _ hne
    cases ls with
    | nil => exact ⟨l, List.mem_cons_self _ _, by rw [intercalate_single]⟩
    | cons l2 ls2 =>
      obtain ⟨l3, hl3, heq⟩ := ih (List.cons_ne_nil _ _)
        (fun q hq => hne q (List.mem_cons_of_mem _ hq))
      refine ⟨l3, List.mem_cons_of_mem _ hl3, ?_⟩
      have hT : List.intercalate ['\n'] (l2 :: ls2) ≠ [] :=
        intercalate_ne_nil (hne l2 (by simp)) ls2
      rw [intercalate_cons2,
        show (['\n'] ++ List.intercalate ['\n'] (l2 :: ls2) : PyStr) =
          '\n' :: List.intercalate ['\n'] (l2 :: ls2) from rfl,
        getLastq_append_of_ne_nil (List.cons_ne_nil _ _) l, getLastq_cons_of_ne_nil hT]
      exact heq

/-! ## Claim C8 infrastructure: body parse roundtrip -/

theorem parseKvLines_dump (g : Nat) : ∀ (m : List (PyStr × Yv)),
    m.all (fun kv => simpleKeyB kv.1 && simpleValB kv.2) = true →
    parseKvLines (g + 2) (m.map (fun kv => kv.1 ++ lit ": " ++ yamlFlowDump 3 kv.2)) =
      Except.ok m := by
  intro m
  induction m with
  | nil => intro h; rfl
  | cons kv t ih =>
    intro h
    rcases kv with ⟨k, v⟩
    simp only [List.all_cons, Bool.and_eq_true] at h
    obtain ⟨⟨hk, hs⟩, ht⟩ := h
    rw [List.map_cons, parseKvLines]
    simp only [line_split hk]
    rw [if_neg (simpleKey_ne_nil hk)]
    rw [show parseFlow (g + 2) (yamlFlowDump 3 v) = Except.ok v from val_roundtrip g 1 hs]
    rw [ih ht]

theorem yamlSafeLoad_dump {m : List (PyStr × Yv)} (hm : simpleTaskDictB m = true) :
    yamlSafeLoad (yamlDumpBody m) = Except.ok (Yv.map m) := by
  rcases m with _ | ⟨kv0, t⟩
  · exact absurd hm (by decide)
  · rw [simpleTaskDictB, Bool.and_eq_true] at hm
    have hall : (kv0 :: t).all (fun kv => simpleKeyB kv.1 && simpleValB kv.2) = true := hm.2
    have hlf : ∀ l ∈ (kv0 :: t).map (fun kv => kv.1 ++ lit ": " ++ yamlFlowDump 3 kv.2),
        l ≠ [] ∧ '\n' ∉ l ∧ keyCharB (l.headD ' ') = true := by
      intro l hl
      rcases List.mem_map.mp hl with ⟨x, hx, rfl⟩
      rw [List.all_eq_true] at hall
      have hx2 := hall x hx
      rw [Bool.and_eq_true] at hx2
      exact ⟨line_ne_nil hx2.1 _, line_no_nl hx2.1 hx2.2, line_headD hx2.1 _⟩
    have hsplit : (List.intercalate ['\n'] ((kv0 :: t).map
        (fun kv => kv.1 ++ lit ": " ++ yamlFlowDump 3 kv.2))).splitOn '\n' =
        (kv0 :: t).map (fun kv => kv.1 ++ lit ": " ++ yamlFlowDump 3 kv.2) :=
      List.splitOn_intercalate _ '\n' (fun l hl => (hlf l hl).2.1) (by
        rw [List.map_cons]
        exact List.cons_ne_nil _ _)
    have hx0 : simpleKeyB kv0.1 = true ∧ simpleValB kv0.2 = true := by
      rw [List.all_eq_true] at hall
      have h2 := hall kv0 (List.mem_cons_self _ _)
      rwa [Bool.and_eq_true] at h2
    have hbne : List.intercalate ['\n'] ((kv0 :: t).map
        (fun kv => kv.1 ++ lit ": " ++ yamlFlowDump 3 kv.2)) ≠ [] := by
      rw [List.map_cons]
      exact intercalate_ne_nil (line_ne_nil hx0.1 _) _
    have hbody : yamlDumpBody (kv0 :: t) = List.intercalate ['\n'] ((kv0 :: t).map
        (fun kv => kv.1 ++ lit ": " ++ yamlFlowDump 3 kv.2)) := rfl
    rcases hB : List.intercalate ['\n'] ((kv0 :: t).map
        (fun kv => kv.1 ++ lit ": " ++ yamlFlowDump 3 kv.2)) with _ | ⟨b0, bs⟩
    · exact absurd hB hbne
    · rw [hbody, hB, yamlSafeLoad]
      rw [hB] at hsplit
      rw [hsplit]
      rcases t with _ | ⟨kv1, t2⟩
      · rw [List.map_cons, List.map_nil]
        simp only [line_split hx0.1]
        exact Eq.trans (congrArg (Except.map Yv.map)
          (show parseKvLines (bs.length + 2) [kv0.1 ++ lit ": " ++ yamlFlowDump 3 kv0.2]
              = Except.ok [kv0] from parseKvLines_dump bs.length [kv0] (by
                simp only [List.all_cons, List.all_nil, Bool.and_eq_true]
                exact ⟨⟨hx0.1, hx0.2⟩, trivial⟩))) rfl
      · rw [List.map_cons, List.map_cons]
        exact Eq.trans (congrArg (Except.map Yv.map)
          (show parseKvLines (bs.length + 2) ((kv0 :: kv1 :: t2).map
              (fun kv => kv.1 ++ lit ": " ++ yamlFlowDump 3 kv.2))
              = Except.ok (kv0 :: kv1 :: t2)
            from parseKvLines_dump bs.length (kv0 :: kv1 :: t2) hall)) rfl
      exact fun h2 => List.noConfusion h2

/-! ## Claim C8 infrastructure: assembly -/

theorem findAiTaskBlock_eq_none : ∀ {s : PyStr}, (∀ i : Nat, ¬ openTag <+: s.drop i) →
    findAiTaskBlock s = none := by
  intro s
  induction s with
  | nil => intro h; rfl
  | cons c rest ih =>
    intro h
    have hnp : ¬ openTag.isPrefixOf (c :: rest) := by
      intro hb
      exact h 0 (by simpa using List.isPrefixOf_iff_prefix.mp hb)
    rw [findAiTaskBlock, if_neg hnp, ih (fun i => by simpa using h (i + 1))]
    rfl

theorem body_facts {m : List (PyStr × Yv)} (hm : simpleTaskDictB m = true) :
    yamlDumpBody m ≠ [] ∧ isPySpace ((yamlDumpBody m).headD ' ') = false ∧
    pyStrip (yamlDumpBody m) = yamlDumpBody m ∧
    (∀ (i : Nat) (r : PyStr), (yamlDumpBody m).drop i = '\n' :: r → r.headD '\n' ≠ '[') := by
  rcases m with _ | ⟨kv0, t⟩
  · exact absurd hm (by decide)
  · rw [simpleTaskDictB, Bool.and_eq_true] at hm
    have hall := hm.2
    have hlf : ∀ l ∈ (kv0 :: t).map (fun kv => kv.1 ++ lit ": " ++ yamlFlowDump 3 kv.2),
        l ≠ [] ∧ '\n' ∉ l ∧ keyCharB (l.headD ' ') = true := by
      intro l hl
      rcases List.mem_map.mp hl with ⟨x, hx, rfl⟩
      rw [List.all_eq_true] at hall
      have hx2 := hall x hx
      rw [Bool.and_eq_true] at hx2
      exact ⟨line_ne_nil hx2.1 _, line_no_nl hx2.1 hx2.2, line_headD hx2.1 _⟩
    have hx0 : simpleKeyB kv0.1 = true ∧ simpleValB kv0.2 = true := by
      rw [List.all_eq_true] at hall
      have h2 := hall kv0 (List.mem_cons_self _ _)
      rwa [Bool.and_eq_true] at h2
    have hbody : yamlDumpBody (kv0 :: t) = List.intercalate ['\n'] ((kv0 :: t).map
        (fun kv => kv.1 ++ lit ": " ++ yamlFlowDump 3 kv.2)) := rfl
    have hbne : List.intercalate ['\n'] ((kv0 :: t).map
        (fun kv => kv.1 ++ lit ": " ++ yamlFlowDump 3 kv.2)) ≠ [] := by
      rw [List.map_cons]
      exact intercalate_ne_nil (line_ne_nil hx0.1 _) _
    have hhd : isPySpace ((yamlDumpBody (kv0 :: t)).headD ' ') = false := by
      rw [hbody, List.map_cons, intercalate_headD (line_ne_nil hx0.1 _)]
      exact (keyChar_ne (line_headD hx0.1 _)).2.2.2.2
    refine ⟨by rw [hbody]; exact hbne, hhd, ?_, ?_⟩
    · obtain ⟨l, hl, heq⟩ := intercalate_getLast _
        (by rw [List.map_cons]; exact List.cons_ne_nil _ _) (fun q hq => (hlf q hq).1)
      rcases List.mem_map.mp hl with ⟨x, hx, rfl⟩
      have hx2 : simpleKeyB x.1 = true ∧ simpleValB x.2 = true := by
        rw [List.all_eq_true] at hall
        have h2 := hall x hx
        rwa [Bool.and_eq_true] at h2
      obtain ⟨c, hc, hsp⟩ := @line_getLast x.1 x.2 hx2.2
      refine pyStrip_eq_self hhd ?_ hsp
      rw [hbody, heq]
      exact hc
    · intro i r hd
      rw [hbody] at hd
      have hkc := intercalate_nl_after _ hlf i r hd
      rcases hr : r with _ | ⟨c0, r2⟩
      · rw [hr] at hkc
        exact absurd hkc (by decide)
      · rw [hr] at hkc
        exact (keyChar_ne hkc).2.1

theorem parse_found {m : List (PyStr × Yv)} (hm : simpleTaskDictB m = true) {s : PyStr}
    {pre : PyStr} (hfind : findAiTaskBlock s = some (pre, yamlDumpBody m, []))
    (hs : s ≠ []) : parseAiTaskBlock s = Except.ok (some m) := by
  rcases s with _ | ⟨s0, sr⟩
  · exact absurd rfl hs
  · have htruthy : pyTruthy (Yv.map m) = true := by
      rcases m with _ | ⟨kv, t⟩
      · exact absurd hm (by decide)
      · rfl
    rw [parseAiTaskBlock, hfind]
    · simp only [yamlSafeLoad_dump hm, htruthy]
      rfl
    · exact fun h2 => List.noConfusion h2

/-- Claim C8 (amended): the task-block round trip
`parse_ai_task_block(upsert_ai_task_block(d, m)) = m` holds for the
normalized mapping `m` of any task whenever the base description `d`
contains no `[AI Task]` opening delimiter and `m` is serializable
(plain keys, scalar or one-level-container values). -/
theorem C8_roundtrip (d : PyStr) (x : List (PyStr × Yv)) (defaults : TaskDefaultsConfig)
    (now : PyStr) (m : List (PyStr × Yv))
    (_hnorm : normalizeTask x defaults now = Except.ok m)
    (hm : simpleTaskDictB m = true)
    (hd : splitFirstSub openTag d = none) :
    parseAiTaskBlock (upsertAiTaskBlock d m) = Except.ok (some m) := by
  obtain ⟨hbne, hhd, hstrip, hnl⟩ := body_facts hm
  have hfindB : findAiTaskBlock
      (openTag ++ '\n' :: yamlDumpBody m ++ '\n' :: lit "[/AI Task]") =
      some ([], yamlDumpBody m, []) := by
    rw [show openTag ++ '\n' :: yamlDumpBody m ++ '\n' :: lit "[/AI Task]" =
      openTag ++ '\n' :: (yamlDumpBody m ++ closeTagNl) from rfl]
    exact findAiTaskBlock_block hbne hhd hnl
  have hBne : openTag ++ '\n' :: yamlDumpBody m ++ '\n' :: lit "[/AI Task]" ≠ [] := by
    intro hc
    exact List.noConfusion (List.append_eq_nil.mp hc).2
  have hlastB : (openTag ++ '\n' :: yamlDumpBody m ++ '\n' :: lit "[/AI Task]").getLast? =
      some ']' := by
    rw [getLastq_append_of_ne_nil (List.cons_ne_nil '\n' (lit "[/AI Task]"))
        (openTag ++ '\n' :: yamlDumpBody m),
      getLastq_cons_of_ne_nil (show lit "[/AI Task]" ≠ [] from by decide)]
    rfl
  rcases d with _ | ⟨d0, dr⟩
  · rw [show upsertAiTaskBlock [] m =
      openTag ++ '\n' :: pyStrip (yamlDumpBody m) ++ '\n' :: lit "[/AI Task]" from rfl,
      hstrip]
    exact parse_found hm hfindB hBne
  · have hfind : findAiTaskBlock (d0 :: dr) = none :=
      findAiTaskBlock_eq_none (splitFirstSub_none hd)
    have hup : upsertAiTaskBlock (d0 :: dr) m = pyStrip (pyRstrip (d0 :: dr) ++
        '\n' :: '\n' :: (openTag ++ '\n' :: pyStrip (yamlDumpBody m) ++ '\n' ::
          lit "[/AI Task]")) := by
      rw [upsertAiTaskBlock, hfind]
      exact fun h2 => List.noConfusion h2
    rw [hup, hstrip]
    rcases hA : (pyRstrip (d0 :: dr)).dropWhile isPySpace with _ | ⟨a0, ar⟩
    · rw [pyStrip, pyLstrip, List.dropWhile_append, hA]
      rw [if_pos (show (List.isEmpty ([] : PyStr)) = true from rfl)]
      rw [List.dropWhile_cons_of_pos (show isPySpace '\n' = true from by decide),
        List.dropWhile_cons_of_pos (show isPySpace '\n' = true from by decide)]
      rw [show openTag ++ '\n' :: yamlDumpBody m ++ '\n' :: lit "[/AI Task]" =
        '[' :: (lit "AI Task]" ++ '\n' :: yamlDumpBody m ++ '\n' :: lit "[/AI Task]")
        from rfl]
      rw [List.dropWhile_cons_of_neg (show ¬ isPySpace '[' = true from by decide)]
      rw [← show openTag ++ '\n' :: yamlDumpBody m ++ '\n' :: lit "[/AI Task]" =
        '[' :: (lit "AI Task]" ++ '\n' :: yamlDumpBody m ++ '\n' :: lit "[/AI Task]")
        from rfl]
      rw [pyRstrip_eq_self hlastB (show isPySpace ']' = false from by decide)]
      exact parse_found hm hfindB hBne
    · rw [pyStrip, pyLstrip, List.dropWhile_append, hA]
      rw [if_neg (show ¬ (List.isEmpty (a0 :: ar)) = true from by simp)]
      have hlast2 : ((a0 :: ar) ++ '\n' :: '\n' ::
          (openTag ++ '\n' :: yamlDumpBody m ++ '\n' :: lit "[/AI Task]")).getLast? =
          some ']' := by
        rw [getLastq_append_of_ne_nil (List.cons_ne_nil '\n' ('\n' ::
            (openTag ++ '\n' :: yamlDumpBody m ++ '\n' :: lit "[/AI Task]"))) (a0 :: ar),
          getLastq_cons_of_ne_nil (List.cons_ne_nil '\n'
            (openTag ++ '\n' :: yamlDumpBody m ++ '\n' :: lit "[/AI Task]")),
          getLastq_cons_of_ne_nil hBne]
        exact hlastB
      rw [pyRstrip_eq_self hlast2 (show isPySpace ']' = false from by decide)]
      have hntd : NoTag (d0 :: dr) := splitFirstSub_none hd
      have hnt2 : NoTag (a0 :: ar) := by
        rw [← hA]
        have hp1 := pyRstrip_prefix (d0 :: dr)
        have hp2 := noTag_of_prefix hp1 hntd
        exact noTag_of_suffix (pyLstrip_suffix _) hp2
      have h2nl : NoTag ['\n', '\n'] := by
        intro i hp
        have h2 := hp.length_le
        rw [show openTag.length = 9 from rfl, List.length_drop,
          show (['\n', '\n'] : PyStr).length = 2 from rfl] at h2
        omega
      have hhdB : ∀ k : Nat, k < 9 → 1 ≤ k → openTag.getD k ' ' ≠
          ((openTag ++ '\n' :: yamlDumpBody m ++ '\n' :: lit "[/AI Task]").headD ' ') := by
        intro k h9 h1
        rw [show (openTag ++ '\n' :: yamlDumpBody m ++ '\n' :: lit "[/AI Task]").headD ' '
          = '[' from rfl]
        interval_cases k <;> decide
      have hhdnl : ∀ k : Nat, k < 9 → 1 ≤ k → openTag.getD k ' ' ≠
          ((['\n', '\n'] : PyStr).headD ' ') := by
        intro k h9 h1
        interval_cases k <;> decide
      have hX : NoTag ((a0 :: ar) ++ ['\n', '\n']) := noTag_append hnt2 h2nl hhdnl
      have hfound : findAiTaskBlock ((a0 :: ar) ++ '\n' :: '\n' ::
          (openTag ++ '\n' :: yamlDumpBody m ++ '\n' :: lit "[/AI Task]")) =
          some ((a0 :: ar) ++ ['\n', '\n'], yamlDumpBody m, []) := by
        rw [show (a0 :: ar) ++ '\n' :: '\n' ::
            (openTag ++ '\n' :: yamlDumpBody m ++ '\n' :: lit "[/AI Task]") =
            ((a0 :: ar) ++ ['\n', '\n']) ++
            (openTag ++ '\n' :: yamlDumpBody m ++ '\n' :: lit "[/AI Task]") from by
          rw [List.append_assoc (a0 :: ar) ['\n', '\n']]
          rfl]
        exact findAiTaskBlock_prepend hfindB _ (noTag_before_append hX hhdB)
      exact parse_found hm hfound (by
        intro hc
        exact absurd (List.append_eq_nil.mp hc).1 (List.cons_ne_nil _ _))

/-- The normalized mapping of the empty task under the default
configuration, at a fixed clock reading. -/
def C8_m0 : List (PyStr × Yv) :=
  match normalizeTask [] ⟨false, false, DEFAULT_EDITABLE_FIELDS⟩
      (lit "2026-01-01T00:00:00+00:00") with
  | Except.ok m => m
  | Except.error _ => []

set_option maxRecDepth 400000 in
/-- Claim C8 counterexample: with a base description holding an
unterminated `[AI Task]` opener, the round trip fails outright — the
upserted description parses to a raised error, not to the normalized
mapping. -/
theorem C8_counterexample :
    normalizeTask [] ⟨false, false, DEFAULT_EDITABLE_FIELDS⟩
      (lit "2026-01-01T00:00:00+00:00") = Except.ok C8_m0 ∧
    parseAiTaskBlock (upsertAiTaskBlock (lit "[AI Task]\nhello") C8_m0) =
      Except.error () := by
  constructor
  · rfl
  · rfl

set_option maxRecDepth 400000 in
/-- Concrete instantiation of the amended C8 round trip. -/
theorem C8_roundtrip_witness :
    parseAiTaskBlock (upsertAiTaskBlock (lit "Some base text") C8_m0) =
      Except.ok (some C8_m0) :=
  C8_roundtrip (lit "Some base text") [] ⟨false, false, DEFAULT_EDITABLE_FIELDS⟩
    (lit "2026-01-01T00:00:00+00:00") C8_m0 rfl rfl rfl
